import Mathlib

/-!
Verification development for the Fusion-to-KCL exporter core
(`fusion-kcl-export-script/fusion-kcl-export.py`, the copy loaded by the
add-in commands, with the `debug_planes = False` configuration used by the
command dialog; debug-only branches emit nothing in that configuration).

Modeling conventions:
* Python floats are modeled as rationals; `round(x, 3)` is modeled with
  round-half-to-even on the scaled value, `math.pi` is the exact rational
  value of the IEEE double stored in `math.pi`.
* Host (Fusion API) queries are modeled as record fields; a query that can
  fail or report nothing is an `Option` field, `none` taking the code path
  of the corresponding fallback.
* The script document is the actual list of emitted text lines.
-/

attribute [local semireducible] Rat.add Rat.mul Rat.inv Rat.sub Rat.ofScientific

namespace FusionKcl

/-- Computable absolute value on the rationals (kernel-reducible). -/
def qAbs (q : ℚ) : ℚ := if q < 0 then -q else q

/-- Computable minimum on the rationals. -/
def qMin (a b : ℚ) : ℚ := if a ≤ b then a else b

/-- Computable maximum on the rationals. -/
def qMax (a b : ℚ) : ℚ := if a ≤ b then b else a

/-- Round to the nearest integer, halves to even, as Python `round` does. -/
def pyRound (q : ℚ) : ℤ :=
  let f := ⌊q⌋
  let r := q - (f : ℚ)
  if r < 1/2 then f
  else if 1/2 < r then f + 1
  else if f % 2 = 0 then f else f + 1

/-- Python `round(x, 3)`: three-decimal rounding used everywhere by the
unit conversion helpers. -/
def round3 (q : ℚ) : ℚ := ((pyRound (q * 1000) : ℤ) : ℚ) / 1000

/-- The exact rational value of the IEEE-754 double `math.pi`. -/
def pyPi : ℚ := 884279719003555 / 281474976710656

/-- Python `math.degrees`. -/
def pyDegrees (rad : ℚ) : ℚ := rad * 180 / pyPi

/-- Python `str.zfill(3)` on the decimal rendering of a counter value. -/
def zfill3 (n : ℕ) : String :=
  let s := toString n
  if s.length ≥ 3 then s
  else String.mk (List.replicate (3 - s.length) ('0')) ++ s

/-- One list is a prefix of another (executable). -/
def listPrefixEq : List Char → List Char → Bool
  | [], _ => true
  | _ :: _, [] => false
  | a :: as, b :: bs => a = b && listPrefixEq as bs

/-- Substring occurrence on character lists. -/
def containsSub (pat : List Char) : List Char → Bool
  | [] => listPrefixEq pat []
  | c :: t => listPrefixEq pat (c :: t) || containsSub pat t

/-- Python `pat in s` substring test. -/
def strContains (s pat : String) : Bool := containsSub pat.data s.data

/-- Python `s.startswith(pre)`. -/
def strStartsWith (s pre : String) : Bool := listPrefixEq pre.data s.data

/-- Python `str.strip` (whitespace from both ends). -/
def pyStrip (s : String) : String :=
  String.mk
    (((s.data.dropWhile Char.isWhitespace).reverse.dropWhile
      Char.isWhitespace).reverse)

/-- Python `str.upper`. -/
def pyUpper (s : String) : String := String.mk (s.data.map Char.toUpper)

/-- The characters before the first occurrence of a separator
(`line.split(sep)[0]`; the whole string when the separator is absent). -/
def beforeFirst (sep : List Char) : List Char → List Char
  | [] => []
  | c :: t =>
    if listPrefixEq sep (c :: t) then []
    else c :: beforeFirst sep t

/-- Remove every occurrence of a pattern (`str.replace(pat, '')`),
fuel-recursive on the string length. -/
def removeSubAux (pat : List Char) : ℕ → List Char → List Char
  | 0, s => s
  | _ + 1, [] => []
  | fuel + 1, c :: t =>
    if listPrefixEq pat (c :: t) && !pat.isEmpty then
      removeSubAux pat fuel ((c :: t).drop pat.length)
    else c :: removeSubAux pat fuel t

/-- `str.replace(pat, '')` on strings. -/
def removeSub (s pat : String) : String :=
  String.mk (removeSubAux pat.data s.data.length s.data)

/-- Parse a decimal natural from characters. -/
def parseNatChars : List Char → Option ℕ
  | [] => none
  | l =>
    if l.all Char.isDigit then
      some (l.foldl (fun a c => a * 10 + (c.toNat - 48)) 0)
    else none

/-- Python `int(s)` on an optionally sign-prefixed decimal string. -/
def parseIntChars : List Char → Option ℤ
  | [] => none
  | c :: t =>
    if c = ('-') then (parseNatChars t).map (fun n => -(n : ℤ))
    else (parseNatChars (c :: t)).map (fun n => (n : ℤ))

/-- Join strings with a separator (kernel-computable `str.join`). -/
def joinWith (sep : String) : List String → String
  | [] => ""
  | [x] => x
  | x :: y :: t => x ++ sep ++ joinWith sep (y :: t)

/-- The single-quote character, used by Python `repr` of strings. -/
def sq : String := String.mk [Char.ofNat 39]

/-- Python `repr` of a list of strings, as interpolated into f-strings. -/
def pyReprList (l : List String) : String :=
  String.append (String.append ("[")
    (joinWith (", ") (l.map (fun s => sq ++ s ++ sq)))) ("]")

/-- Python f-string interpolation of an optional value (`None` renders as
the text `None`). -/
def pyOptStr : Option String → String
  | none => "None"
  | some s => s

/-- Decimal rendering of a rational, matching Python `str` on the floats
the exporter produces (integral values render with a trailing `.0`;
fractional parts are exact for multiples of `1/1000000`). -/
def fmtQ (q : ℚ) : String :=
  let sign := if q < 0 then ("-") else ("")
  let a := qAbs q
  let ip : ℕ := (⌊a⌋).toNat
  let frac : ℚ := a - (⌊a⌋ : ℚ)
  let micro : ℕ := (⌊frac * 1000000⌋).toNat
  let digits := Nat.toDigits 10 micro
  let padded := List.replicate (6 - digits.length) ('0') ++ digits
  let trimmed := (padded.reverse.dropWhile (fun c => c = ('0'))).reverse
  let fracStr := if trimmed.isEmpty then ("0") else String.mk trimmed
  sign ++ toString ip ++ "." ++ fracStr

/-- Association-list model of a Python `dict` (insertion-ordered;
re-assignment of an existing key keeps its position). -/
def dictInsert (m : List (String × String)) (k v : String) :
    List (String × String) :=
  if m.any (fun p => p.1 = k) then
    m.map (fun p => if p.1 = k then (k, v) else p)
  else m ++ [(k, v)]

/-- Python `dict` lookup. -/
def dictLookup (m : List (String × String)) (k : String) : Option String :=
  (m.find? (fun p => p.1 = k)).map (·.2)

/-- Python `dict.values()` in insertion order. -/
def dictValues (m : List (String × String)) : List String := m.map (·.2)

/-- Sort key used for extrude variable names:
`int(x.replace('extrude', ''))`.  On the names the exporter registers the
suffix is always numeric; other strings get a default so the model stays
total. -/
def extrudeSortKey (s : String) : ℤ :=
  (parseIntChars (removeSub s ("extrude")).data).getD 0

/-- Stable insertion into a list sorted by `extrudeSortKey`
(Python `sorted` is stable). -/
def insertByKey (x : String) : List String → List String
  | [] => [x]
  | y :: ys =>
    if extrudeSortKey y ≤ extrudeSortKey x then y :: insertByKey x ys
    else x :: y :: ys

/-- Python `sorted(names, key=lambda x: int(x.replace('extrude', '')))`. -/
def sortExtrudeNames (l : List String) : List String :=
  l.foldl (fun acc x => insertByKey x acc) []

/-- Maximal alphanumeric runs of a string: Python
`re.findall(r'[a-zA-Z0-9]+', name)`. -/
def alnumWords (s : String) : List String :=
  let step := fun (st : List String × List Char) (c : Char) =>
    if c.isAlphanum then (st.1, st.2 ++ [c])
    else if st.2.isEmpty then (st.1, [])
    else (st.1 ++ [String.mk st.2], [])
  let fin := s.data.foldl step ([], [])
  if fin.2.isEmpty then fin.1 else fin.1 ++ [String.mk fin.2]

/-- Python `str.lower`. -/
def pyLower (s : String) : String := String.mk (s.data.map Char.toLower)

/-- Python `str.capitalize`: first character upper-cased, the rest
lower-cased. -/
def pyCapitalize (s : String) : String :=
  match s.data with
  | [] => ""
  | c :: cs => String.mk (c.toUpper :: cs.map Char.toLower)

/-- `KCLExporter.get_safe_name`: lowerCamelCase identifier derived from a
source name. -/
def getSafeName (name : String) : String :=
  match alnumWords name with
  | [] => "unnamed"
  | w :: ws =>
    let safe := (ws.map pyCapitalize).foldl (fun a b => a ++ b) (pyLower w)
    match safe.data with
    | [] => "unnamed"
    | c :: _ =>
      if c.isDigit then String.append ("sketch") (pyCapitalize safe)
      else safe

/-! ## Geometry data model -/

/-- A 2-D sketch point (raw host coordinates, internal centimeters). -/
structure Pt where
  x : ℚ
  y : ℚ
deriving DecidableEq, Repr

instance : Inhabited Pt := ⟨⟨0, 0⟩⟩

/-- The four curve primitives the exporter reads from a sketch. -/
inductive Curve
  | line (s e : Pt)
  | arc (center s e : Pt) (radius startAngle endAngle : ℚ)
  | circle (center : Pt) (radius : ℚ)
  | spline (fitPoints : List Pt)
deriving DecidableEq, Repr

/-- `get_curve_start_point`: lines, arcs and splines expose their start
sketch point; circles expose their center. -/
def getCurveStartPt : Curve → Option Pt
  | .line s _ => some s
  | .arc _ s _ _ _ _ => some s
  | .circle c _ => some c
  | .spline ps => ps.head?

/-- `get_curve_end_point`: lines, arcs and splines expose their end sketch
point; circles expose their center. -/
def getCurveEndPt : Curve → Option Pt
  | .line _ e => some e
  | .arc _ _ e _ _ _ => some e
  | .circle c _ => some c
  | .spline ps => ps.getLast?

/-- The logical endpoints of a curve, as used for connectivity. -/
def curveEps (c : Curve) : List Pt :=
  (getCurveStartPt c).toList ++ (getCurveEndPt c).toList

/-- `points_are_close` with the default tolerance `1e-6`. -/
def pointsAreClose (p q : Pt) : Bool :=
  decide (qAbs (p.x - q.x) < 1/1000000) && decide (qAbs (p.y - q.y) < 1/1000000)

/-! ## Unit and coordinate conversion -/

/-- `convert_internal_to_display_units`: the host conversion factor `u`
(internal centimeters to display units) applied and rounded to three
decimals. -/
def convLen (u v : ℚ) : ℚ := round3 (u * v)

/-- `convert_point_2d`: per-coordinate conversion, with the second
coordinate sign-inverted when the current sketch plane is `XZ`.  The
`Option` mirrors the `hasattr(self, 'current_sketch_plane')` check. -/
def convertPoint2d (plane : Option String) (u : ℚ) (p : Pt) : ℚ × ℚ :=
  let x := convLen u p.x
  let y := convLen u p.y
  match plane with
  | some pl => if pl = "XZ" then (x, -y) else (x, y)
  | none => (x, y)

/-- `adjust_extrude_distance`: sign flip on the `XZ` plane only. -/
def adjustExtrudeDistance (d : ℚ) (sketchPlane : String) : ℚ :=
  if sketchPlane = "XZ" then -d else d

/-! ## Plane classification -/

/-- A 3-D unit normal as reported by the host. -/
structure Vec3 where
  x : ℚ
  y : ℚ
  z : ℚ
deriving DecidableEq, Repr

/-- The normal-vector classification at the heart of `get_plane_name`:
threshold `1.0 - 0.1 = 0.9` on each axis component, z first, defaulting
to `XY`. -/
def classifyNormal (x y z : ℚ) : String :=
  if qAbs z > 1 - 1/10 then "XY"
  else if qAbs y > 1 - 1/10 then "XZ"
  else if qAbs x > 1 - 1/10 then "YZ"
  else "XY"

/-- The surface geometry behind a face or construction plane. -/
inductive SurfaceGeom
  | plane (normal : Vec3)
  | nonPlanar (typeName : String)
deriving DecidableEq, Repr

/-- A reference plane as passed to `get_plane_name`. -/
inductive PlaneRef
  | face (geometry : SurfaceGeom)
  | construction (geometry : SurfaceGeom)
  | other (strRep : String)
deriving DecidableEq, Repr

/-- `get_plane_name`: faces and construction planes classify by normal,
anything else falls back to substring matching on the upper-cased string
representation, defaulting to `XY`. -/
def getPlaneName (p : PlaneRef) : String :=
  match p with
  | .face g =>
    match g with
    | .plane n => classifyNormal n.x n.y n.z
    | .nonPlanar _ => "XY"
  | .construction g =>
    match g with
    | .plane n => classifyNormal n.x n.y n.z
    | .nonPlanar _ => "XY"
  | .other s =>
    let su := pyUpper s
    if strContains su ("XY") || strContains su ("ORIGIN XY") then "XY"
    else if strContains su ("XZ") || strContains su ("ORIGIN XZ") then "XZ"
    else if strContains su ("YZ") || strContains su ("ORIGIN YZ") then "YZ"
    else "XY"

/-! ## Curve connectivity sorter (`sort_curves_by_connectivity`) -/

/-- One record of the `curve_endpoints` dictionary: a curve together with
its logical start and end points. -/
structure CEntry where
  s : Pt
  stop : Pt
  curve : Curve
deriving DecidableEq, Repr

/-- First pass of the sorter: keep the curves exposing both endpoints,
in input order. -/
def buildEntries (all : List Curve) : List CEntry :=
  all.filterMap (fun c =>
    match getCurveStartPt c, getCurveEndPt c with
    | some a, some b => some ⟨a, b, c⟩
    | _, _ => none)

/-- The comparison used to pick the starting curve: strictly smaller
converted x, or x within `0.001` and strictly smaller converted y. -/
def betterStart (sc bp : ℚ × ℚ) : Bool :=
  decide (sc.1 < bp.1) ||
    (decide (qAbs (sc.1 - bp.1) < 1/1000) && decide (sc.2 < bp.2))

/-- The fold of the starting-curve selection, tracking the running best
entry position and its converted start point. -/
def pickStartAux (pl : Option String) (u : ℚ) :
    List CEntry → ℕ → Option (ℕ × (ℚ × ℚ)) → Option (ℕ × (ℚ × ℚ))
  | [], _, best => best
  | e :: rest, i, best =>
    let sc := convertPoint2d pl u e.s
    match best with
    | none => pickStartAux pl u rest (i + 1) (some (i, sc))
    | some (bi, bp) =>
      if betterStart sc bp then pickStartAux pl u rest (i + 1) (some (i, sc))
      else pickStartAux pl u rest (i + 1) (some (bi, bp))

/-- Starting-curve selection over the whole entry list. -/
def pickStart (pl : Option String) (u : ℚ) (es : List CEntry) :
    Option (ℕ × (ℚ × ℚ)) :=
  pickStartAux pl u es 0 none

/-- One scan of the chain loop: the first unused entry whose start (first,
`true`) or end (`false`, conceptually traversed in reverse) is close to the
current endpoint, together with the remaining entries in order. -/
def findNext (cur : Pt) : List CEntry → Option (CEntry × Bool × List CEntry)
  | [] => none
  | e :: rest =>
    if pointsAreClose cur e.s then some (e, true, rest)
    else if pointsAreClose cur e.stop then some (e, false, rest)
    else
      match findNext cur rest with
      | some (e', f, rem) => some (e', f, e :: rem)
      | none => none

/-- The greedy chain loop (`while len(sorted_curves) < len(all_curves)`),
fuel-recursive; the fuel is an upper bound on the iteration count, not a
semantic device. -/
def chainAux : ℕ → ℕ → List CEntry → List Curve → Pt → List Curve
  | 0, _, _, acc, _ => acc
  | Nat.succ fuel, total, es, acc, cur =>
    if acc.length < total then
      match findNext cur es with
      | some (e, fwd, rest) =>
        chainAux fuel total rest (acc ++ [e.curve])
          (if fwd then e.stop else e.s)
      | none => acc ++ es.map (·.curve)
    else acc

/-- `sort_curves_by_connectivity`: pick the starting curve, then greedily
chain; on a dead end append the remaining curves in input order. -/
def sortCurvesByConnectivity (pl : Option String) (u : ℚ)
    (all : List Curve) : List Curve :=
  match all with
  | [] => []
  | _ :: _ =>
    let es := buildEntries all
    match pickStart pl u es with
    | none => all
    | some (i, _) =>
      match es[i]? with
      | none => all
      | some e => chainAux (all.length + 1) all.length (es.eraseIdx i)
          [e.curve] e.stop

/-! ## Host snapshot data model -/

/-- `fusionUnitsManager.distanceDisplayUnits` as an enum. -/
inductive DistanceUnitEnum
  | inch | mm | cm | m | ft | otherUnit
deriving DecidableEq, Repr

/-- A design parameter as read from the host. Empty strings model absent
optional attributes (Python falsy checks). -/
structure Param where
  name : String
  value : ℚ
  unit : String
  comment : String
  expression : String
deriving DecidableEq, Repr

/-- The sketch data reachable from a profile (`parentSketch`). -/
structure SketchRef where
  name : String
  plane : PlaneRef
deriving DecidableEq, Repr

/-- A feature profile reference: a single profile or an object collection;
each item may fail to expose a parent sketch. -/
inductive ProfileObj
  | single (parentSketch : Option SketchRef)
  | collection (items : List (Option SketchRef))
deriving DecidableEq, Repr

/-- A solid body handle: stable token plus the creator-feature link
(`createdBy`, `none` when absent or unreadable). -/
structure Body where
  entityToken : String
  createdByToken : Option String
deriving DecidableEq, Repr

/-- `ExtrudeFeature.extentOne` variants. -/
inductive ExtentDef
  | distance (v : ℚ)
  | throughAll
  | toEntity
  | symmetric (v : ℚ)
  | twoSides (d1 d2 : ℚ)
  | otherExtent (typeName : String)
deriving DecidableEq, Repr

/-- `RevolveFeature.extentDefinition` variants. -/
inductive RevolveExtentDef
  | angle (rad : ℚ)
  | fullSweep
  | otherRevolveExtent (typeName : String)
deriving DecidableEq, Repr

/-- `adsk.fusion.FeatureOperations` values the exporter distinguishes. -/
inductive FeatureOperation
  | join | cut | intersect | newBody | newComponent
deriving DecidableEq, Repr

/-- An extrude feature with the host queries the exporter performs:
`bodiesQ`/`linkedQ`/`componentBodiesQ` are `none` when the corresponding
API access fails. -/
structure ExtrudeFeature where
  name : String
  entityToken : String
  extentOne : ExtentDef
  profile : Option ProfileObj
  bodiesQ : Option (List Body)
  linkedQ : Option (List (List Body))
  componentBodiesQ : Option (List Body)
deriving DecidableEq, Repr

/-- A revolve feature. -/
structure RevolveFeature where
  name : String
  entityToken : String
  extentDefinition : RevolveExtentDef
  profile : Option ProfileObj
deriving DecidableEq, Repr

/-- A combine feature; `operationQ = none` models the operation query
raising, with `opErrMsg` the host exception text. The body fields model
what the host would report; the script copy of `export_combine` never
reads them. -/
structure CombineFeature where
  name : String
  entityToken : String
  operationQ : Option FeatureOperation
  opErrMsg : String
  targetBody : Option Body
  toolBodies : Option (List Body)
deriving DecidableEq, Repr

/-- A timeline feature as dispatched by `export_feature`. -/
inductive Feature
  | extrude (f : ExtrudeFeature)
  | revolve (f : RevolveFeature)
  | combine (f : CombineFeature)
  | otherFeature (objectType objName : String)
deriving DecidableEq, Repr

/-- Arc data: sketch points plus the `Arc3D` geometry values. -/
structure ArcData where
  center : Pt
  s : Pt
  e : Pt
  radius : ℚ
  startAngle : ℚ
  endAngle : ℚ
deriving DecidableEq, Repr

/-- Circle data: center sketch point and radius. -/
structure CircleData where
  center : Pt
  radius : ℚ
deriving DecidableEq, Repr

/-- A sketch: its name, reference plane, and the four curve collections in
host storage order. -/
structure Sketch where
  name : String
  referencePlane : PlaneRef
  lines : List (Pt × Pt)
  arcs : List ArcData
  circles : List CircleData
  splines : List (List Pt)
deriving DecidableEq, Repr

/-- `sketch.sketchCurves` flattened in the collection order used by
`export_sketch_curve`: lines, then arcs, then circles, then splines. -/
def sketchAllCurves (sk : Sketch) : List Curve :=
  sk.lines.map (fun p => Curve.line p.1 p.2) ++
  sk.arcs.map (fun a => Curve.arc a.center a.s a.e a.radius a.startAngle a.endAngle) ++
  sk.circles.map (fun c => Curve.circle c.center c.radius) ++
  sk.splines.map (fun ps => Curve.spline ps)

/-- Total curve count checked by `export_sketch`. -/
def sketchTotalCurves (sk : Sketch) : ℕ :=
  sk.lines.length + sk.arcs.length + sk.circles.length + sk.splines.length

/-- A component: sketches and features in timeline order. -/
structure Component where
  name : String
  sketches : List Sketch
  features : List Feature
deriving DecidableEq, Repr

/-- A design snapshot: document name, unit queries, the host conversion
factor from internal centimeters to display units, parameters, and the
root component. -/
structure Design where
  docName : String
  unitsEnumQ : Option DistanceUnitEnum
  unitsStringQ : Option String
  unitFactor : ℚ
  allParameters : List Param
  userParameters : List Param
  rootComponent : Component
deriving DecidableEq, Repr

/-! ## Exporter state and emission -/

/-- The mutable state of a `KCLExporter` instance (with
`debug_planes = False`). -/
structure ExporterState where
  kclContent : List String
  indentLevel : ℕ
  bodyToFeatureMap : List (String × String)
  featureToKclName : List (String × String)
  counter : ℕ
  currentSketchPlane : Option String
  currentProfilePosition : Option (ℚ × ℚ)
  units : String
deriving DecidableEq, Repr

/-- The state of a freshly constructed `KCLExporter`. -/
def initialState : ExporterState :=
  { kclContent := []
    indentLevel := 0
    bodyToFeatureMap := []
    featureToKclName := []
    counter := 0
    currentSketchPlane := none
    currentProfilePosition := none
    units := "mm" }

/-- Two spaces per indentation level. -/
def indentStr (st : ExporterState) : String :=
  String.mk (List.replicate (2 * st.indentLevel) (Char.ofNat 32))

/-- `add_line`. -/
def addLine (st : ExporterState) (l : String) : ExporterState :=
  { st with kclContent := st.kclContent ++ [indentStr st ++ l] }

/-- `add_comment`. -/
def addComment (st : ExporterState) (c : String) : ExporterState :=
  addLine st (String.append ("// ") c)

/-- The indentation-level assignments of `export_sketch`. -/
def withIndent (st : ExporterState) (n : ℕ) : ExporterState :=
  { st with indentLevel := n }

/-- The sketch-context assignments made at the head of `export_sketch`. -/
def setSketchCtx (st : ExporterState) (pl : Option String) : ExporterState :=
  { st with currentSketchPlane := pl, currentProfilePosition := none }

/-- `get_unique_id`: bump the shared counter and return its decimal
rendering. -/
def getUniqueId (st : ExporterState) : ExporterState × String :=
  ({ st with counter := st.counter + 1 }, toString (st.counter + 1))

/-- Python `str.zfill(3)` on an id string. -/
def zfillStr3 (s : String) : String :=
  if s.length ≥ 3 then s
  else String.mk (List.replicate (3 - s.length) ('0')) ++ s

/-- `detect_document_units`: unit enum first, then the unit-name string,
then the fixed `mm` default. -/
def detectDocumentUnits (d : Design) : String :=
  match d.unitsEnumQ with
  | some e =>
    match e with
    | .inch => "in"
    | .mm => "mm"
    | .cm => "cm"
    | .m => "m"
    | .ft => "ft"
    | .otherUnit => "mm"
  | none =>
    match d.unitsStringQ with
    | some s =>
      if s = "in" ∨ s = "inch" then "in"
      else if s = "mm" ∨ s = "millimeter" then "mm"
      else if s = "cm" ∨ s = "centimeter" then "cm"
      else if s = "m" ∨ s = "meter" then "m"
      else if s = "ft" ∨ s = "foot" then "ft"
      else "mm"
    | none => "mm"

/-- `find_kcl_name_for_body`: the body-token mapping if present, else the
creator-feature link followed into the feature mapping, caching the result
in the body mapping; `none` when both fail. -/
def findKclNameForBody (st : ExporterState) (b : Body) :
    Option String × ExporterState :=
  match dictLookup st.bodyToFeatureMap b.entityToken with
  | some n => (some n, st)
  | none =>
    match b.createdByToken with
    | some ft =>
      match dictLookup st.featureToKclName ft with
      | some n =>
        (some n,
          { st with bodyToFeatureMap :=
              dictInsert st.bodyToFeatureMap b.entityToken n })
      | none => (none, st)
    | none => (none, st)

/-- Record one body-token mapping. -/
def mapBody (st : ExporterState) (tok kclName : String) : ExporterState :=
  { st with bodyToFeatureMap := dictInsert st.bodyToFeatureMap tok kclName }

/-- `track_extrude_bodies`: register the feature-token mapping, then map
every reported body; when none are reported, fall back to the component
body count (single body, creator match, then most recent body). -/
def trackExtrudeBodies (st : ExporterState) (f : ExtrudeFeature)
    (kclName : String) : ExporterState :=
  let m := dictInsert st.featureToKclName f.entityToken kclName
  let st := { st with featureToKclName := m }
  let bodies := (f.bodiesQ.getD []) ++ (f.linkedQ.getD []).flatten
  let st := bodies.foldl (fun s b => mapBody s b.entityToken kclName) st
  if bodies.isEmpty then
    match f.componentBodiesQ with
    | some cbs =>
      if cbs.length = 1 then
        match cbs.head? with
        | some b => mapBody st b.entityToken kclName
        | none => st
      else if cbs.length > 1 then
        match cbs.find? (fun b => b.createdByToken = some f.entityToken) with
        | some b => mapBody st b.entityToken kclName
        | none =>
          match cbs.getLast? with
          | some b => mapBody st b.entityToken kclName
          | none => st
      else st
    | none => st
  else st

/-- The rendered text of a `line` drawing operation (two leading spaces in
the f-string, on top of the current indentation). -/
def mkLineStmt (ex ey : ℚ) : String :=
  String.append ("  |> line(endAbsolute = [")
    (fmtQ ex ++ ", " ++ fmtQ ey ++ "], %)")

/-- `export_line`: skip zero-length lines and duplicate endpoints, else
emit an absolute-endpoint line op and advance the profile position. The
float `sqrt(dx**2 + dy**2) < 0.001` test is modeled by comparing squares. -/
def exportLine (u : ℚ) (st : ExporterState) (sPt ePt : Pt) : ExporterState :=
  let sc := convertPoint2d st.currentSketchPlane u sPt
  let ec := convertPoint2d st.currentSketchPlane u ePt
  if (ec.1 - sc.1) ^ 2 + (ec.2 - sc.2) ^ 2 < 1/1000000 then st
  else
    let dup :=
      match st.currentProfilePosition with
      | some c => decide (qAbs (ec.1 - c.1) < 1/1000) &&
          decide (qAbs (ec.2 - c.2) < 1/1000)
      | none => false
    if dup then st
    else
      let st := addLine st (mkLineStmt ec.1 ec.2)
      { st with currentProfilePosition := some ec }

/-- The rendered text of an `arc` drawing operation. -/
def mkArcStmt (sd ed r : ℚ) : String :=
  String.append ("  |> arc(angleStart = ")
    (fmtQ sd ++ ", angleEnd = " ++ fmtQ ed ++ ", radius = " ++ fmtQ r ++ ", %)")

/-- `export_arc`: angles converted to degrees, the end angle wrapped up by
360 when numerically below the start angle. -/
def exportArc (u : ℚ) (st : ExporterState) (a : ArcData) : ExporterState :=
  let _centerConv := convertPoint2d st.currentSketchPlane u a.center
  let _startConv := convertPoint2d st.currentSketchPlane u a.s
  let ec := convertPoint2d st.currentSketchPlane u a.e
  let radius := convLen u a.radius
  let startDeg := pyDegrees a.startAngle
  let endDeg0 := pyDegrees a.endAngle
  let endDeg := if endDeg0 < startDeg then endDeg0 + 360 else endDeg0
  let st := addLine st (mkArcStmt startDeg endDeg radius)
  { st with currentProfilePosition := some ec }

/-- The rendered text of a `circle` drawing operation. -/
def mkCircleStmt (cx cy d : ℚ) : String :=
  String.append ("  |> circle(center = [")
    (fmtQ cx ++ ", " ++ fmtQ cy ++ "], diameter = " ++ fmtQ d ++ ", %)")

/-- `export_circle`: center plus diameter (twice the converted radius). -/
def exportCircle (u : ℚ) (st : ExporterState) (c : CircleData) :
    ExporterState :=
  let cc := convertPoint2d st.currentSketchPlane u c.center
  let radiusValue := convLen u c.radius
  let st := addLine st (mkCircleStmt cc.1 cc.2 (radiusValue * 2))
  { st with currentProfilePosition := some cc }

/-- One consecutive-point step of `export_spline`: emit the segment as a
line op unless it is shorter than the tolerance. -/
def splineStep (st : ExporterState) (pr : (ℚ × ℚ) × (ℚ × ℚ)) :
    ExporterState :=
  let a := pr.1
  let b := pr.2
  if (b.1 - a.1) ^ 2 + (b.2 - a.2) ^ 2 < 1/1000000 then st
  else
    let st := addLine st (mkLineStmt b.1 b.2)
    { st with currentProfilePosition := some b }

/-- `export_spline`: successive fit points joined by line ops, with
zero-length segments suppressed. -/
def exportSpline (u : ℚ) (st : ExporterState) (ps : List Pt) :
    ExporterState :=
  let pts := ps.map (convertPoint2d st.currentSketchPlane u)
  (pts.zip pts.tail).foldl splineStep st

/-- Dispatch of the per-curve emission in `export_sketch_curve`. -/
def exportCurveItem (u : ℚ) (st : ExporterState) : Curve → ExporterState
  | .line s e => exportLine u st s e
  | .arc c s e r sa ea => exportArc u st ⟨c, s, e, r, sa, ea⟩
  | .circle c r => exportCircle u st ⟨c, r⟩
  | .spline ps => exportSpline u st ps

/-- The rendered text of a `startProfile` statement. -/
def mkStartProfileStmt (x y : ℚ) : String :=
  String.append ("|> startProfile(at = [") (fmtQ x ++ ", " ++ fmtQ y ++ "], %)")

/-- `export_sketch_curve`: collect the curves, sort them by connectivity,
emit the profile start and then each curve; returns whether any circle was
present. -/
def exportSketchCurve (u : ℚ) (st : ExporterState) (sk : Sketch) :
    ExporterState × Bool :=
  let allCurves := sketchAllCurves sk
  let hasCircles := !sk.circles.isEmpty
  let sorted := sortCurvesByConnectivity st.currentSketchPlane u allCurves
  match sorted.head? with
  | none => (st, hasCircles)
  | some first =>
    let startGeom : Option Pt :=
      match first with
      | .circle c _ => some c
      | .line s _ => some s
      | .arc _ s _ _ _ _ => some s
      | .spline ps => ps.head?
    let st :=
      match startGeom with
      | some p =>
        let sp := convertPoint2d st.currentSketchPlane u p
        let st := addLine st (mkStartProfileStmt sp.1 sp.2)
        { st with currentProfilePosition := some sp }
      | none =>
        let st := addLine st ("|> startProfile(at = [0.0, 0.0], %)")
        { st with currentProfilePosition := some ((0 : ℚ), (0 : ℚ)) }
    let st := sorted.foldl (exportCurveItem u) st
    (st, hasCircles)

/-- The closing statement of a sketch block, as rendered at indent 1. -/
def closeLine : String := "  |> close(%)"

/-- The non-skip branch of `export_sketch`: the `startSketchOn` chain
head, the indented curve emission, and the close statement unless a
circle was present, followed by the blank separator line. -/
def exportSketchBody (u : ℚ) (st : ExporterState) (sk : Sketch)
    (sketchVarName planeName : String) : ExporterState :=
  let st := addLine st (sketchVarName ++ " = startSketchOn(" ++ planeName ++ ")")
  let st := withIndent st (st.indentLevel + 1)
  let res := exportSketchCurve u st sk
  let st := res.1
  let st := if res.2 then st else addLine st ("|> close(%)")
  let st := withIndent st (st.indentLevel - 1)
  addLine st ("")

/-- `export_sketch`: sketch comment, plane classification, zero-curve
skip, the `startSketchOn` chain, and the close statement unless a circle
was present. -/
def exportSketch (u : ℚ) (st : ExporterState) (sk : Sketch) :
    ExporterState :=
  let st := addComment st (String.append ("Sketch: ") sk.name)
  let planeName := getPlaneName sk.referencePlane
  let sketchVarName := getSafeName sk.name
  let st := setSketchCtx st (some planeName)
  if sketchTotalCurves sk = 0 then
    addComment st (String.append ("Skipping ")
      (sk.name ++ " - no curves found"))
  else
    exportSketchBody u st sk sketchVarName planeName

/-- The distance policy of `export_extrude`, together with the note
comments emitted by each branch. -/
def resolveExtent (u : ℚ) : ExtentDef → ℚ × List String
  | .distance v => (convLen u v, [])
  | .throughAll => (100, ["Note: Through-all extent converted to 100 units"])
  | .toEntity => (50, ["Note: To-entity extent converted to 50 units"])
  | .symmetric v =>
    (convLen u v, ["Note: Symmetric extent - using total distance"])
  | .twoSides d1 _ =>
    (convLen u d1, ["Note: Two-sided extent - using first side distance only"])
  | .otherExtent t => (10, [String.append ("Unsupported extent type: ") t])

/-- The extrude-statement emission shared by the single-profile and
first-of-collection paths of `export_extrude`. -/
def exportExtrudeWithProfile (st : ExporterState) (f : ExtrudeFeature)
    (distance : ℚ) (item : Option SketchRef) : ExporterState :=
  match item with
  | some skRef =>
    let sketchName := getSafeName skRef.name
    let sketchPlane := getPlaneName skRef.plane
    let adjusted := adjustExtrudeDistance distance sketchPlane
    let r := getUniqueId st
    let extrudeVarName := String.append ("extrude") r.2
    let st := addLine r.1 (extrudeVarName ++ " = " ++ sketchName ++
      " |> extrude(length = " ++ fmtQ adjusted ++ ")")
    trackExtrudeBodies st f extrudeVarName
  | none =>
    let r := getUniqueId st
    addLine r.1 (String.append ("extrude")
      (r.2 ++ " = sketch |> extrude(length = " ++ fmtQ distance ++ ")"))

/-- `export_extrude`. -/
def exportExtrude (u : ℚ) (st : ExporterState) (f : ExtrudeFeature) :
    ExporterState :=
  let st := addComment st (String.append ("Extrude: ") f.name)
  let rd := resolveExtent u f.extentOne
  let st := rd.2.foldl addComment st
  let st :=
    match f.profile with
    | none => addComment st ("Warning: No profile found for extrude")
    | some po =>
      match po with
      | .collection items =>
        match items.head? with
        | none => addComment st ("Warning: Empty profile collection")
        | some item => exportExtrudeWithProfile st f rd.1 item
      | .single item => exportExtrudeWithProfile st f rd.1 item
  addLine st ("")

/-- The angle policy of `export_revolve`. -/
def resolveRevolveAngle : RevolveExtentDef → Option ℚ × List String
  | .angle rad => (some (pyDegrees rad), [])
  | .fullSweep => (some 360, ["Note: Full sweep converted to 360 degrees"])
  | .otherRevolveExtent _ => (none, [])

/-- The revolve-statement emission for a resolved sketch item. -/
def exportRevolveWithProfile (st : ExporterState) (angle : ℚ)
    (item : Option SketchRef) : ExporterState :=
  match item with
  | some skRef =>
    let sketchName := getSafeName skRef.name
    let r := getUniqueId st
    addLine r.1 (String.append ("revolve")
      (r.2 ++ " = " ++ sketchName ++ " |> revolve(axis = Y, angle = " ++
        fmtQ angle ++ ")"))
  | none =>
    let r := getUniqueId st
    addLine r.1 (String.append ("revolve")
      (r.2 ++ " = sketch |> revolve(axis = Y, angle = " ++ fmtQ angle ++ ")"))

/-- `export_revolve`. -/
def exportRevolve (st : ExporterState) (f : RevolveFeature) :
    ExporterState :=
  let st := addComment st (String.append ("Revolve: ") f.name)
  let ra := resolveRevolveAngle f.extentDefinition
  let st := ra.2.foldl addComment st
  let st :=
    match ra.1 with
    | none => addComment st ("Warning: Unsupported revolve extent type")
    | some angle =>
      match f.profile with
      | none => addComment st ("Warning: No profile found for revolve")
      | some po =>
        match po with
        | .collection items =>
          match items.head? with
          | none => addComment st ("Warning: Empty profile collection")
          | some item => exportRevolveWithProfile st angle item
        | .single item => exportRevolveWithProfile st angle item
  addLine st ("")

/-- A line counted by the `combine_count` scan: contains `solid` together
with a boolean-operation word. -/
def isBoolOpLine (l : String) : Bool :=
  strContains l ("solid") &&
    (strContains l ("subtract") || strContains l ("union") ||
      strContains l ("intersect"))

/-- The reverse scan for the most recent `solid` assignment. -/
def recentSolidOf (content : List String) : Option String :=
  content.reverse.findSome? (fun l =>
    if strContains l ("solid") && strContains l ("=") then
      let n := pyStrip (String.mk (beforeFirst [('=')] l.data))
      if strStartsWith n ("solid") then some n else none
    else none)

/-- Membership in the `used_extrudes` set: the name occurs in some line
holding a boolean-operation word. -/
def usedExtrude (content : List String) (e : String) : Bool :=
  content.any (fun l =>
    (strContains l ("subtract") || strContains l ("union") ||
      strContains l ("intersect")) && strContains l e)

/-- The `combine_count` scan over the current document. -/
def combineCountOf (content : List String) : ℕ :=
  (content.filter isBoolOpLine).length

/-- The extrude variable names registered so far, in creation order
(numeric-suffix sort of the `extrude`-prefixed mapping values). -/
def extrudeNamesOf (fmap : List (String × String)) : List String :=
  sortExtrudeNames
    ((dictValues fmap).filter (fun s => strStartsWith s ("extrude")))

/-- The subsequent-combine fallback of `export_combine`: most recent
`solid` assignment as target, first unused non-first extrude as tool;
a diagnostic comment when either is missing. -/
def combineFallback (st : ExporterState) (combineCount : ℕ)
    (extrudeNames : List String) :
    ExporterState × Option String × Option String :=
  let recentSolid := recentSolidOf st.kclContent
  let unused :=
    match extrudeNames with
    | [] => []
    | h :: _ => extrudeNames.filter
        (fun e => !usedExtrude st.kclContent e && e ≠ h)
  match recentSolid, unused with
  | some rs, uh :: _ =>
    (addComment st (String.append ("Combine #")
      (toString (combineCount + 1) ++ ": " ++ rs ++ " - " ++ uh)),
      some rs, some uh)
  | _, _ =>
    (addComment st (String.append ("Could not find unused extrudes. Recent solid: ")
      (pyOptStr recentSolid ++ ", Unused: " ++ pyReprList unused)),
      none, none)

/-- The deduction-and-emission phase of `export_combine`, after the
operation name is settled: the first-combine branch or the fallback, then
the boolean statement (or the skip comments) and the blank separator. -/
def exportCombineTail (st : ExporterState) (operationName : String) :
    ExporterState :=
  let combineCount := combineCountOf st.kclContent
  let extrudeNames := extrudeNamesOf st.featureToKclName
  let sel :=
    if combineCount = 0 ∧ 2 ≤ extrudeNames.length then
      match extrudeNames with
      | a :: b :: _ =>
        (addComment st (String.append ("First combine: ") (a ++ " - " ++ b)),
          some a, some b)
      | _ => combineFallback st combineCount extrudeNames
    else combineFallback st combineCount extrudeNames
  let st := sel.1
  match sel.2.1, sel.2.2 with
  | some targetName, some toolName =>
    let r := getUniqueId st
    let solidVarName := String.append ("solid") (zfillStr3 r.2)
    let st :=
      if operationName = "subtract" then
        addLine r.1 (solidVarName ++ " = " ++ operationName ++ "(" ++
          targetName ++ ", tools = " ++ toolName ++ ")")
      else
        addLine r.1 (solidVarName ++ " = " ++ operationName ++ "(" ++
          targetName ++ ", " ++ toolName ++ ")")
    addLine st ("")
  | target?, tool? =>
    let st := addComment st ("Could not deduce combine parameters - SKIPPING")
    let st := if target?.isNone then
        addComment st ("  Could not determine target") else st
    let st := if tool?.isNone then
        addComment st ("  Could not determine tool") else st
    addLine st ("")

/-- `export_combine` (script copy): operation name from the feature, then
positional deduction over the extrude names registered so far and the
lines already emitted; the host body references are never consulted. -/
def exportCombine (st : ExporterState) (f : CombineFeature) :
    ExporterState :=
  let st := addComment st (String.append ("Combine: ") f.name)
  let opRes :=
    match f.operationQ with
    | some op =>
      let n :=
        match op with
        | .join => "union"
        | .cut => "subtract"
        | .intersect => "intersect"
        | _ => "subtract"
      (st, n)
    | none =>
      (addComment st (String.append ("Could not get operation type: ")
        f.opErrMsg), "subtract")
  exportCombineTail opRes.1 opRes.2

/-- `export_feature` dispatch; unsupported feature kinds emit nothing. -/
def exportFeature (u : ℚ) (st : ExporterState) : Feature → ExporterState
  | .extrude f => exportExtrude u st f
  | .revolve f => exportRevolve st f
  | .combine f => exportCombine st f
  | .otherFeature _ _ => st

/-- `export_component`: all sketches first, then all features. -/
def exportComponent (u : ℚ) (st : ExporterState) (c : Component) :
    ExporterState :=
  let st := addComment st (String.append ("Component: ") c.name)
  let st := addComment st (String.append ("Found ")
    (toString c.sketches.length ++ " sketches and " ++
      toString c.features.length ++ " features"))
  let st := addLine st ("")
  let st :=
    if c.sketches.isEmpty then st
    else
      let st := addComment st ("=== SKETCHES ===")
      c.sketches.foldl (exportSketch u) st
  if c.features.isEmpty then st
  else
    let st := addComment st ("=== FEATURES ===")
    c.features.foldl (exportFeature u) st

/-- `export_parameter`. -/
def exportParameter (u : ℚ) (st : ExporterState) (p : Param) :
    ExporterState :=
  let kclParamName := getSafeName p.name
  let valueStr :=
    if p.unit ≠ "" then
      if p.unit = "cm" ∨ p.unit = "mm" ∨ p.unit = "in" ∨ p.unit = "m" ∨
          p.unit = "ft" then
        fmtQ (convLen u p.value)
      else fmtQ p.value
    else fmtQ p.value
  let paramLine := kclParamName ++ " = " ++ valueStr
  let exprS := if p.expression ≠ "" then p.expression else fmtQ p.value
  let paramLine :=
    if p.comment ≠ "" ∨ p.name ≠ kclParamName then
      let parts :=
        (if p.name ≠ kclParamName then
          [String.append ("Original: ") p.name] else []) ++
        (if p.comment ≠ "" then [p.comment] else []) ++
        (if p.unit ≠ "" then [String.append ("Units: ") p.unit] else []) ++
        (if exprS ≠ fmtQ p.value then
          [String.append ("Expression: ") exprS] else [])
      if parts.isEmpty then paramLine
      else paramLine ++ "  // " ++ String.intercalate (" | ") parts
    else paramLine
  addLine st paramLine

/-- `export_parameters`: user parameters (those whose name appears in the
user-parameter collection) with a header, or a placeholder comment. -/
def exportParameters (u : ℚ) (st : ExporterState) (d : Design) :
    ExporterState :=
  if d.allParameters.isEmpty then st
  else
    let st := addComment st ("=== PARAMETERS ===")
    let userNames := d.userParameters.map (·.name)
    let userParams := d.allParameters.filter (fun p => userNames.contains p.name)
    if !userParams.isEmpty then
      let st := addComment st ("User Parameters:")
      let st := userParams.foldl (exportParameter u) st
      addLine st ("")
    else
      let st := addComment st ("No user parameters defined")
      addLine st ("")

/-- `export_design`: reset the document, detect units, emit the header and
settings, the parameters, then the root component. -/
def exportDesign (st : ExporterState) (d : Design) : ExporterState :=
  let st := { st with kclContent := [] }
  let st := { st with units := detectDocumentUnits d }
  let st := addComment st ("Generated from Fusion 360")
  let st := addComment st (String.append ("Design: ") d.docName)
  let st := addLine st ("")
  let st := addLine st ("// Set units")
  let st := addLine st (String.append ("@settings(defaultLengthUnit = ")
    (st.units ++ ")"))
  let st := addLine st ("")
  let st := exportParameters d.unitFactor st d
  exportComponent d.unitFactor st d.rootComponent

/-- One run of the translator as every entry point performs it: a freshly
constructed exporter, then `export_design`, then the newline join. -/
def runTranslator (d : Design) : String :=
  joinWith (String.mk [Char.ofNat 10]) (exportDesign initialState d).kclContent

/-! ## Specification vocabulary for the curve sorter claims -/

/-- Two points farther apart than the connection tolerance (the negation
of `points_are_close`). -/
def Far (p q : Pt) : Prop := pointsAreClose p q = false

/-- Consecutive edges of a closed vertex cycle. -/
def cyclePairs (vs : List Pt) : List (Pt × Pt) := vs.zip (vs.rotate 1)

/-- A curve presents a vertex pair as a line in either orientation. -/
def orientsTo (pr : Pt × Pt) (c : Curve) : Bool :=
  decide (c = Curve.line pr.1 pr.2) || decide (c = Curve.line pr.2 pr.1)

/-- Cross product of `a - o` and `b - o`. -/
def cross3 (o a b : Pt) : ℚ :=
  (a.x - o.x) * (b.y - o.y) - (a.y - o.y) * (b.x - o.x)

/-- A point inside the bounding box of a segment (used for the collinear
cases of the segment-intersection test). -/
def inBox (a b p : Pt) : Bool :=
  decide (qMin a.x b.x ≤ p.x) && decide (p.x ≤ qMax a.x b.x) &&
    decide (qMin a.y b.y ≤ p.y) && decide (p.y ≤ qMax a.y b.y)

/-- Closed segments `pq` and `rs` intersect. -/
def segCross (p q r s : Pt) : Bool :=
  let d1 := cross3 r s p
  let d2 := cross3 r s q
  let d3 := cross3 p q r
  let d4 := cross3 p q s
  (decide (d1 * d2 < 0) && decide (d3 * d4 < 0)) ||
    (decide (d1 = 0) && inBox r s p) || (decide (d2 = 0) && inBox r s q) ||
    (decide (d3 = 0) && inBox p q r) || (decide (d4 = 0) && inBox p q s)

/-- No two non-adjacent edges of the closed polygon on `vs` intersect. -/
def nonAdjNoCross (vs : List Pt) : Bool :=
  let n := vs.length
  (List.range n).all (fun i => (List.range n).all (fun j =>
    if i < j ∧ j ≠ i + 1 ∧ ¬(i = 0 ∧ j = n - 1) then
      !segCross (vs.getD i default) (vs.getD ((i + 1) % n) default)
        (vs.getD j default) (vs.getD ((j + 1) % n) default)
    else true))

/-- The input curve collection presents the simple closed polygon with
vertex cycle `vs`, each edge as a line in either orientation, in arbitrary
order: at least three pairwise-distinct vertices, no two non-adjacent
edges intersecting, and the curves a permutation of the cycle edges. -/
def IsSimplePolygonInput (vs : List Pt) (curves : List Curve) : Prop :=
  3 ≤ vs.length ∧ vs.Pairwise (· ≠ ·) ∧ nonAdjNoCross vs = true ∧
    ∃ O : List Curve,
      List.Forall₂ (fun pr c => orientsTo pr c = true) (cyclePairs vs) O ∧
      curves.Perm O

/-- Two consecutive output curves share a logical endpoint within the
connection tolerance. -/
def shareClose (c₁ c₂ : Curve) : Prop :=
  ∃ p ∈ curveEps c₁, ∃ q ∈ curveEps c₂, pointsAreClose p q = true

/-- The claim's starting-point comparator: lexicographically smaller under
(x, then y) with tie-break tolerance `0.001`, on converted coordinates. -/
def tolLt (a b : ℚ × ℚ) : Prop :=
  a.1 < b.1 ∨ (qAbs (a.1 - b.1) < 1/1000 ∧ a.2 < b.2)

instance (p q : Pt) : Decidable (Far p q) :=
  decidable_of_iff (pointsAreClose p q = false) Iff.rfl

instance (c₁ c₂ : Curve) : Decidable (shareClose c₁ c₂) :=
  decidable_of_iff
    (∃ p ∈ curveEps c₁, ∃ q ∈ curveEps c₂, pointsAreClose p q = true) Iff.rfl

instance (a b : ℚ × ℚ) : Decidable (tolLt a b) :=
  decidable_of_iff (a.1 < b.1 ∨ (qAbs (a.1 - b.1) < 1/1000 ∧ a.2 < b.2))
    Iff.rfl

/-- Executable form of `List.Chain'` over a decidable relation. -/
def chainB (R : Curve → Curve → Prop) [DecidableRel R] (l : List Curve) :
    Bool :=
  (l.zip l.tail).all (fun pr => decide (R pr.1 pr.2))

theorem chainB_iff (R : Curve → Curve → Prop) [DecidableRel R] :
    ∀ l : List Curve, List.Chain' R l ↔ chainB R l = true := by
  intro l
  induction l with
  | nil => simp [chainB]
  | cons a t ih =>
    cases t with
    | nil => simp [chainB]
    | cons b t' =>
      rw [List.chain'_cons]
      constructor
      · rintro ⟨hab, hrest⟩
        have := (ih).1 hrest
        simp only [chainB, List.zip, List.all_eq_true] at this ⊢
        intro pr hpr
        rcases List.mem_cons.1 hpr with h | h
        · subst h; exact decide_eq_true hab
        · exact this pr h
      · intro h
        simp only [chainB, List.zip, List.all_eq_true] at h
        refine ⟨of_decide_eq_true (h (a, b) (List.mem_cons_self _ _)), ?_⟩
        refine (ih).2 ?_
        simp only [chainB, List.zip, List.all_eq_true]
        intro pr hpr
        exact h pr (List.mem_cons_of_mem _ hpr)

/-- The output starts with a curve no other input curve beats under the
claim's starting-point comparator. -/
def StartsAtLexMin (pl : Option String) (u : ℚ)
    (input out : List Curve) : Prop :=
  ∃ c₀, out.head? = some c₀ ∧
    ∃ p₀, getCurveStartPt c₀ = some p₀ ∧
      ∀ c ∈ input, ∀ p, getCurveStartPt c = some p →
        ¬ tolLt (convertPoint2d pl u p) (convertPoint2d pl u p₀)

/-! ## Basic lemmas -/

theorem qAbs_eq_abs (q : ℚ) : qAbs q = |q| := by
  unfold qAbs
  rcases lt_or_ge q 0 with h | h
  · rw [if_pos h, abs_of_neg h]
  · rw [if_neg (not_lt.2 h), abs_of_nonneg h]

theorem qAbs_neg (q : ℚ) : qAbs (-q) = qAbs q := by
  rw [qAbs_eq_abs, qAbs_eq_abs, abs_neg]

/-! ## Claim C5: the extrude extent-distance policy table -/

/-- C5: for every Extrude extent kind the translator always produces a
numeric distance and never aborts: a fixed-distance extent yields the
converted value, through-all the constant 100, to-entity the constant 50,
symmetric the converted total distance, two-sided the converted first-side
distance, and any unrecognized kind the constant 10 — `resolveExtent` is
total, so every constructor of `ExtentDef` obtains a number. -/
theorem extrude_extent_distance_policy : ∀ u : ℚ,
    (∀ v, (resolveExtent u (ExtentDef.distance v)).1 = convLen u v) ∧
    (resolveExtent u ExtentDef.throughAll).1 = 100 ∧
    (resolveExtent u ExtentDef.toEntity).1 = 50 ∧
    (∀ v, (resolveExtent u (ExtentDef.symmetric v)).1 = convLen u v) ∧
    (∀ d1 d2, (resolveExtent u (ExtentDef.twoSides d1 d2)).1 = convLen u d1) ∧
    (∀ t, (resolveExtent u (ExtentDef.otherExtent t)).1 = 10) := by
  intro u
  exact ⟨fun _ => rfl, rfl, rfl, fun _ => rfl, fun _ _ => rfl, fun _ => rfl⟩

/-! ## Claim C6: the XZ-plane sign flips -/

/-- C6: on the Secondary (`XZ`) canonical plane the emitted extrude length
is the negation of the converted raw distance and every converted point's
second coordinate is sign-inverted relative to the converted raw input;
on the Primary (`XY`) and Tertiary (`YZ`) planes neither adjustment is
applied. -/
theorem xz_plane_sign_flips :
    (∀ d : ℚ, adjustExtrudeDistance d ("XZ") = -d ∧
      adjustExtrudeDistance d ("XY") = d ∧
      adjustExtrudeDistance d ("YZ") = d) ∧
    (∀ u : ℚ, ∀ p : Pt,
      convertPoint2d (some ("XZ")) u p = (convLen u p.x, -(convLen u p.y)) ∧
      convertPoint2d (some ("XY")) u p = (convLen u p.x, convLen u p.y) ∧
      convertPoint2d (some ("YZ")) u p = (convLen u p.x, convLen u p.y)) := by
  constructor
  · intro d
    refine ⟨rfl, ?_, ?_⟩ <;> simp [adjustExtrudeDistance]
  · intro u p
    refine ⟨rfl, ?_, ?_⟩ <;> simp [convertPoint2d]

/-! ## Claim C7: plane classification by dominant normal component -/

theorem sq_gt_of_abs_gt {a : ℚ} (h : 9/10 < |a|) : 81/100 < a ^ 2 := by
  nlinarith [abs_nonneg a, sq_abs a]

theorem abs_le_of_sq_le {a : ℚ} (h : a ^ 2 ≤ 81/100) : ¬ 9/10 < |a| :=
  fun hc => absurd (sq_gt_of_abs_gt hc) (by linarith)

/-- C7: for every plane reference whose unit normal can be read, the
classification is the normal-component test; it is invariant under
negating the normal (in particular the normals `(0,0,1)` and `(0,0,-1)`
both classify as the Primary `XY` plane); on a unit normal whichever
component exceeds the threshold `0.9` in magnitude determines the result
(z gives `XY`, y gives `XZ`, x gives `YZ`); and a normal with no component
above the threshold classifies as `XY`. -/
theorem plane_classification_dominant_component :
    (∀ n : Vec3,
      getPlaneName (PlaneRef.face (SurfaceGeom.plane n)) =
        classifyNormal n.x n.y n.z ∧
      getPlaneName (PlaneRef.construction (SurfaceGeom.plane n)) =
        classifyNormal n.x n.y n.z) ∧
    (∀ x y z : ℚ, classifyNormal (-x) (-y) (-z) = classifyNormal x y z) ∧
    classifyNormal 0 0 1 = "XY" ∧ classifyNormal 0 0 (-1) = "XY" ∧
    (∀ x y z : ℚ, x ^ 2 + y ^ 2 + z ^ 2 = 1 →
      (9/10 < qAbs z → classifyNormal x y z = "XY") ∧
      (9/10 < qAbs y → classifyNormal x y z = "XZ") ∧
      (9/10 < qAbs x → classifyNormal x y z = "YZ")) ∧
    (∀ x y z : ℚ, ¬ 9/10 < qAbs x → ¬ 9/10 < qAbs y → ¬ 9/10 < qAbs z →
      classifyNormal x y z = "XY") := by
  have hthr : (1 : ℚ) - 1/10 = 9/10 := by norm_num
  refine ⟨fun n => ⟨rfl, rfl⟩, ?_, by decide, by decide, ?_, ?_⟩
  · intro x y z
    unfold classifyNormal
    rw [qAbs_neg, qAbs_neg, qAbs_neg]
  · intro x y z hsum
    rw [qAbs_eq_abs, qAbs_eq_abs, qAbs_eq_abs]
    refine ⟨?_, ?_, ?_⟩
    · intro hz
      unfold classifyNormal
      rw [if_pos (by rw [hthr, qAbs_eq_abs]; exact hz)]
    · intro hy
      have hy2 : 81/100 < y ^ 2 := sq_gt_of_abs_gt hy
      have hz2 : z ^ 2 ≤ 81/100 := by nlinarith [sq_nonneg x]
      unfold classifyNormal
      rw [if_neg (by rw [hthr, qAbs_eq_abs]; exact abs_le_of_sq_le hz2),
        if_pos (by rw [hthr, qAbs_eq_abs]; exact hy)]
    · intro hx
      have hx2 : 81/100 < x ^ 2 := sq_gt_of_abs_gt hx
      have hz2 : z ^ 2 ≤ 81/100 := by nlinarith [sq_nonneg y]
      have hy2 : y ^ 2 ≤ 81/100 := by nlinarith [sq_nonneg z]
      unfold classifyNormal
      rw [if_neg (by rw [hthr, qAbs_eq_abs]; exact abs_le_of_sq_le hz2),
        if_neg (by rw [hthr, qAbs_eq_abs]; exact abs_le_of_sq_le hy2),
        if_pos (by rw [hthr, qAbs_eq_abs]; exact hx)]
  · intro x y z hx hy hz
    unfold classifyNormal
    rw [if_neg (by rw [hthr]; exact hz), if_neg (by rw [hthr]; exact hy),
      if_neg (by rw [hthr]; exact hx)]

/-- Witness for C7: the unit normal `(0, 1, 0)` satisfies the unit-norm
hypothesis and classifies as the Secondary plane. -/
theorem plane_classification_witness : classifyNormal 0 1 0 = "XZ" :=
  (plane_classification_dominant_component.2.2.2.2.1 0 1 0
    (by norm_num)).2.1 (by rw [qAbs_eq_abs]; norm_num)

/-! ## Claim C9: determinism and idempotence of a translation run -/

/-- C9: a translation run is a pure function of the input model snapshot:
two runs, each performed as every entry point performs them (a fresh
exporter followed by `export_design`), produce identical output text, and
the output is independent of any leftover document content in the
exporter state, because `export_design` resets the document first; no
timestamp or other run-varying input exists in the model. -/
theorem translation_run_deterministic : ∀ d : Design,
    runTranslator d = runTranslator d ∧
    ∀ leftover : List String,
      joinWith (String.mk [Char.ofNat 10])
          (exportDesign { initialState with kclContent := leftover } d).kclContent =
        runTranslator d := by
  intro d
  exact ⟨rfl, fun leftover => rfl⟩

/-! ## Claim C2: Combine operand resolution and the lineage lookup -/

theorem dictLookup_append_self (m : List (String × String)) (k v : String)
    (h : m.any (fun p => p.1 = k) = false) :
    dictLookup (m ++ [(k, v)]) k = some v := by
  induction m with
  | nil =>
    unfold dictLookup
    rw [List.nil_append, List.find?_cons_of_pos _ (by simp)]
    rfl
  | cons p t ih =>
    rw [List.any_cons] at h
    have hp : ¬ p.1 = k := by
      intro hk
      simp [hk] at h
    have ht := (Bool.or_eq_false_iff.1 h).2
    unfold dictLookup at ih ⊢
    rw [List.cons_append, List.find?_cons_of_neg _ (by simpa using hp)]
    exact ih ht

theorem dictLookup_mapReplace_self (m : List (String × String))
    (k v : String) (h : m.any (fun p => p.1 = k) = true) :
    dictLookup (m.map (fun p => if p.1 = k then (k, v) else p)) k =
      some v := by
  induction m with
  | nil => simp at h
  | cons p t ih =>
    by_cases hp : p.1 = k
    · unfold dictLookup
      rw [List.map_cons, if_pos hp, List.find?_cons_of_pos _ (by simp)]
      rfl
    · rw [List.any_cons] at h
      have ht : t.any (fun p => p.1 = k) = true := by
        rcases Bool.or_eq_true_iff.1 h with h1 | h1
        · exact absurd (by simpa using h1) hp
        · exact h1
      unfold dictLookup at ih ⊢
      rw [List.map_cons, if_neg hp,
        List.find?_cons_of_neg _ (by simpa using hp)]
      exact ih ht

theorem dictLookup_dictInsert_self (m : List (String × String))
    (k v : String) : dictLookup (dictInsert m k v) k = some v := by
  unfold dictInsert
  by_cases hany : m.any (fun p => p.1 = k) = true
  · rw [if_pos hany]
    exact dictLookup_mapReplace_self m k v hany
  · rw [if_neg hany]
    exact dictLookup_append_self m k v (Bool.not_eq_true _ ▸ hany)

/-- C2 (amended): the Lineage Tracker lookup `find_kcl_name_for_body`
behaves exactly as specified — body-token mapping hit returned unchanged;
otherwise the creator-feature link is followed into the feature mapping
and the result is cached in the body mapping; `none` when both fail — but
the Combine translator never invokes it: `export_combine` is invariant
under arbitrary changes to the host-reported target and tool bodies, and
always applies the positional deduction instead. -/
theorem combine_lineage_resolution_amended :
    (∀ (st : ExporterState) (b : Body) (n : String),
      dictLookup st.bodyToFeatureMap b.entityToken = some n →
      findKclNameForBody st b = (some n, st)) ∧
    (∀ (st : ExporterState) (b : Body) (ft n : String),
      dictLookup st.bodyToFeatureMap b.entityToken = none →
      b.createdByToken = some ft →
      dictLookup st.featureToKclName ft = some n →
      (findKclNameForBody st b).1 = some n ∧
        dictLookup (findKclNameForBody st b).2.bodyToFeatureMap
          b.entityToken = some n) ∧
    (∀ (st : ExporterState) (b : Body),
      dictLookup st.bodyToFeatureMap b.entityToken = none →
      (∀ ft, b.createdByToken = some ft →
        dictLookup st.featureToKclName ft = none) →
      findKclNameForBody st b = (none, st)) ∧
    (∀ (st : ExporterState) (f : CombineFeature)
      (tb : Option Body) (tbs : Option (List Body)),
      exportCombine st { f with targetBody := tb, toolBodies := tbs } =
        exportCombine st f) := by
  refine ⟨?_, ?_, ?_, ?_⟩
  · intro st b n h
    unfold findKclNameForBody
    rw [h]
  · intro st b ft n h1 h2 h3
    unfold findKclNameForBody
    rw [h1]
    dsimp only
    rw [h2]
    dsimp only
    rw [h3]
    exact ⟨rfl, dictLookup_dictInsert_self _ _ _⟩
  · intro st b h1 h2
    unfold findKclNameForBody
    rw [h1]
    dsimp only
    cases hcb : b.createdByToken with
    | none => rfl
    | some ft =>
      dsimp only
      rw [h2 ft hcb]
  · intro st f tb tbs
    rfl

/-- Witness for C2 (amended): a concrete body resolved through the
creator-feature link, with the result cached. -/
theorem combine_lineage_resolution_witness :
    (findKclNameForBody
        { initialState with featureToKclName := [("t1", "extrude1")] }
        ⟨"b1", some "t1"⟩).1 = some "extrude1" ∧
      dictLookup
        (findKclNameForBody
          { initialState with featureToKclName := [("t1", "extrude1")] }
          ⟨"b1", some "t1"⟩).2.bodyToFeatureMap "b1" = some "extrude1" :=
  combine_lineage_resolution_amended.2.1
    { initialState with featureToKclName := [("t1", "extrude1")] }
    ⟨"b1", some "t1"⟩ "t1" "extrude1" (by decide) (by decide) (by decide)

/-- The exporter state of the C2 counterexample: a cached body-to-name
mapping and two registered extrudes. -/
def c2State : ExporterState :=
  { initialState with
    bodyToFeatureMap := [("bt", "revolve7")]
    featureToKclName := [("t1", "extrude1"), ("t2", "extrude2")]
    counter := 2 }

/-- The combine feature of the C2 counterexample: the host reports both a
target body (whose lineage resolves to `revolve7`) and tool bodies. -/
def c2Combine : CombineFeature :=
  { name := "C", entityToken := "tc", operationQ := some FeatureOperation.cut,
    opErrMsg := "", targetBody := some ⟨"bt", none⟩,
    toolBodies := some [⟨"b2", none⟩] }

/-- Counterexample to C2 as stated: the target body is reported and its
Lineage Tracker resolution succeeds with `revolve7`, yet the emitted
boolean statement is built from the positional fallback — the resolved
name appears nowhere in the output. -/
theorem combine_ignores_lineage_counterexample :
    (findKclNameForBody c2State ⟨"bt", none⟩).1 = some ("revolve7") ∧
    c2Combine.targetBody.isSome = true ∧
    c2Combine.toolBodies.isSome = true ∧
    (exportCombine c2State c2Combine).kclContent =
      ["// Combine: C", "// First combine: extrude1 - extrude2",
        "solid003 = subtract(extrude1, tools = extrude2)", ""] ∧
    (∀ l ∈ (exportCombine c2State c2Combine).kclContent,
      strContains l ("revolve7") = false) := by
  decide

/-! ## Claim C10: a Combine with fewer than two extrudes emits no
boolean statement -/

theorem insertByKey_length (x : String) :
    ∀ l : List String, (insertByKey x l).length = l.length + 1 := by
  intro l
  induction l with
  | nil => rfl
  | cons y ys ih =>
    unfold insertByKey
    by_cases h : extrudeSortKey y ≤ extrudeSortKey x
    · rw [if_pos h]
      simp [ih]
    · rw [if_neg h]
      simp

theorem sortExtrudeNames_length (l : List String) :
    (sortExtrudeNames l).length = l.length := by
  suffices h : ∀ (l acc : List String),
      (l.foldl (fun acc x => insertByKey x acc) acc).length =
        acc.length + l.length by
    simpa using h l []
  intro l
  induction l with
  | nil => simp
  | cons x t ih =>
    intro acc
    simp only [List.foldl_cons, ih, insertByKey_length, List.length_cons]
    omega

theorem empty_str_append (s : String) : String.append ("") s = s := rfl

theorem mkNil_append (s : String) : String.mk [] ++ s = s := rfl

theorem addComment_content (st : ExporterState) (c : String)
    (h : st.indentLevel = 0) :
    (addComment st c).kclContent =
      st.kclContent ++ [String.append ("// ") c] := by
  unfold addComment addLine indentStr
  rw [h]
  rfl

theorem addLine_content (st : ExporterState) (l : String)
    (h : st.indentLevel = 0) :
    (addLine st l).kclContent = st.kclContent ++ [l] := by
  unfold addLine indentStr
  rw [h]
  rfl

theorem addComment_indentLevel (st : ExporterState) (c : String) :
    (addComment st c).indentLevel = st.indentLevel := rfl

theorem setSketchCtx_kclContent (st : ExporterState) (pl : Option String) :
    (setSketchCtx st pl).kclContent = st.kclContent := rfl

theorem setSketchCtx_indentLevel (st : ExporterState) (pl : Option String) :
    (setSketchCtx st pl).indentLevel = st.indentLevel := rfl

theorem withIndent_kclContent (st : ExporterState) (n : ℕ) :
    (withIndent st n).kclContent = st.kclContent := rfl

theorem withIndent_indentLevel (st : ExporterState) (n : ℕ) :
    (withIndent st n).indentLevel = n := rfl

theorem addComment_featureToKclName (st : ExporterState) (c : String) :
    (addComment st c).featureToKclName = st.featureToKclName := rfl

theorem combineFallback_short (st : ExporterState) (cc : ℕ)
    (names : List String) (h : names.length < 2) :
    ∃ c, combineFallback st cc names = (addComment st c, none, none) := by
  match names, h with
  | [], _ =>
    unfold combineFallback
    dsimp only
    cases hrs : recentSolidOf st.kclContent with
    | none => exact ⟨_, rfl⟩
    | some rs => exact ⟨_, rfl⟩
  | [x], _ =>
    unfold combineFallback
    have hfil : [x].filter
        (fun e => !usedExtrude st.kclContent e && e ≠ x) = [] := by
      simp [List.filter]
    dsimp only
    rw [hfil]
    cases hrs : recentSolidOf st.kclContent with
    | none => exact ⟨_, rfl⟩
    | some rs => exact ⟨_, rfl⟩

theorem exportCombineTail_short (s2 : ExporterState)
    (h0 : s2.indentLevel = 0)
    (hnames : (extrudeNamesOf s2.featureToKclName).length < 2) :
    ∃ c, ∀ opName : String, (exportCombineTail s2 opName).kclContent =
      s2.kclContent ++ [String.append ("// ") c,
        String.append ("// ") ("Could not deduce combine parameters - SKIPPING"),
        String.append ("// ") ("  Could not determine target"),
        String.append ("// ") ("  Could not determine tool"), ""] := by
  obtain ⟨c, hF⟩ := combineFallback_short s2 (combineCountOf s2.kclContent)
    (extrudeNamesOf s2.featureToKclName) hnames
  refine ⟨c, fun opName => ?_⟩
  unfold exportCombineTail
  dsimp only
  rw [if_neg (by rintro ⟨-, h2⟩; omega), hF]
  dsimp only
  simp only [Option.isNone_none, reduceIte]
  have hlvl : ∀ (s : ExporterState) (x : String), s.indentLevel = 0 →
      (addComment s x).indentLevel = 0 := by
    intro s x h
    rw [addComment_indentLevel]
    exact h
  rw [addLine_content _ _ (hlvl _ _ (hlvl _ _ (hlvl _ _ (hlvl _ _ h0)))),
    addComment_content _ _ (hlvl _ _ (hlvl _ _ (hlvl _ _ h0))),
    addComment_content _ _ (hlvl _ _ (hlvl _ _ h0)),
    addComment_content _ _ (hlvl _ _ h0),
    addComment_content _ _ h0]
  simp [List.append_assoc]

/-- C10 (amended): when a Combine is translated with fewer than two
extrude variables registered in the feature-to-name mapping and no solid
variable yet emitted, no boolean statement is produced: the only lines
appended to the script document are comment lines plus the single
trailing blank separator line, and the rest of the document is
unchanged. -/
theorem combine_below_two_extrudes_amended :
    ∀ (st : ExporterState) (f : CombineFeature),
    st.indentLevel = 0 →
    ((dictValues st.featureToKclName).filter
      (fun s => strStartsWith s ("extrude"))).length < 2 →
    (∀ l ∈ st.kclContent, strStartsWith l ("solid") = false) →
    ∃ app, (exportCombine st f).kclContent = st.kclContent ++ app ∧
      ∀ l ∈ app, (∃ body, l = String.append ("// ") body) ∨ l = "" := by
  intro st f h0 hlen _hns
  have hnames : (extrudeNamesOf st.featureToKclName).length < 2 := by
    rw [extrudeNamesOf, sortExtrudeNames_length]
    exact hlen
  have hind : indentStr st = "" := by
    unfold indentStr
    rw [h0]
    rfl
  clear hlen hind
  cases hop : f.operationQ with
  | some op =>
    obtain ⟨c, hc⟩ := exportCombineTail_short
      (addComment st (String.append ("Combine: ") f.name))
      (by rw [addComment_indentLevel]; exact h0)
      (by rw [addComment_featureToKclName]; exact hnames)
    refine ⟨[String.append ("// ") (String.append ("Combine: ") f.name),
      String.append ("// ") c,
      String.append ("// ") ("Could not deduce combine parameters - SKIPPING"),
      String.append ("// ") ("  Could not determine target"),
      String.append ("// ") ("  Could not determine tool"), ""], ?_, ?_⟩
    · unfold exportCombine
      rw [hop]
      dsimp only
      rw [hc _, addComment_content st _ h0]
      simp [List.append_assoc]
    · intro l hl
      simp only [List.mem_cons, List.not_mem_nil, or_false] at hl
      rcases hl with rfl | rfl | rfl | rfl | rfl | rfl
      · exact Or.inl ⟨_, rfl⟩
      · exact Or.inl ⟨_, rfl⟩
      · exact Or.inl ⟨_, rfl⟩
      · exact Or.inl ⟨_, rfl⟩
      · exact Or.inl ⟨_, rfl⟩
      · exact Or.inr rfl
  | none =>
    obtain ⟨c, hc⟩ := exportCombineTail_short
      (addComment (addComment st (String.append ("Combine: ") f.name))
        (String.append ("Could not get operation type: ") f.opErrMsg))
      (by rw [addComment_indentLevel, addComment_indentLevel]; exact h0)
      (by rw [addComment_featureToKclName, addComment_featureToKclName]
          exact hnames)
    refine ⟨[String.append ("// ") (String.append ("Combine: ") f.name),
      String.append ("// ")
        (String.append ("Could not get operation type: ") f.opErrMsg),
      String.append ("// ") c,
      String.append ("// ") ("Could not deduce combine parameters - SKIPPING"),
      String.append ("// ") ("  Could not determine target"),
      String.append ("// ") ("  Could not determine tool"), ""], ?_, ?_⟩
    · unfold exportCombine
      rw [hop]
      dsimp only
      rw [hc _, addComment_content _ _
          (by rw [addComment_indentLevel]; exact h0),
        addComment_content st _ h0]
      simp [List.append_assoc]
    · intro l hl
      simp only [List.mem_cons, List.not_mem_nil, or_false] at hl
      rcases hl with rfl | rfl | rfl | rfl | rfl | rfl | rfl
      · exact Or.inl ⟨_, rfl⟩
      · exact Or.inl ⟨_, rfl⟩
      · exact Or.inl ⟨_, rfl⟩
      · exact Or.inl ⟨_, rfl⟩
      · exact Or.inl ⟨_, rfl⟩
      · exact Or.inl ⟨_, rfl⟩
      · exact Or.inr rfl

/-- A Combine feature translated before any extrude was registered. -/
def c10Combine : CombineFeature :=
  { name := "C", entityToken := "t", operationQ := some FeatureOperation.cut,
    opErrMsg := "", targetBody := none, toolBodies := none }

/-- Counterexample to C10 as stated: with no extrude registered and no
solid emitted, the Combine translation appends, besides comments, a blank
separator line — so not only comment lines are appended. -/
theorem combine_blank_line_counterexample :
    ((dictValues initialState.featureToKclName).filter
      (fun s => strStartsWith s ("extrude"))).length < 2 ∧
    ("" ∈ (exportCombine initialState c10Combine).kclContent) ∧
    ¬ ∃ body, ("" : String) = String.append ("// ") body := by
  refine ⟨by decide, by decide, ?_⟩
  rintro ⟨body, hb⟩
  have h3 : ([] : List Char) = ('/') :: ('/') :: (' ') :: body.data :=
    congrArg String.data hb
  simp at h3

/-- Witness for C10 (amended): the fresh exporter state with a Cut
combine satisfies the hypotheses, and the conclusion follows. -/
theorem combine_below_two_extrudes_witness :
    ∃ app, (exportCombine initialState c10Combine).kclContent =
      initialState.kclContent ++ app ∧
      ∀ l ∈ app, (∃ body, l = String.append ("// ") body) ∨ l = "" :=
  combine_below_two_extrudes_amended initialState c10Combine (by decide)
    (by decide) (by decide)

/-! ## Claim C3: end-to-end positional fallback scenario -/

/-- The reference plane of the scenario sketch (z normal, Primary). -/
def scenarioCPlane : PlaneRef :=
  PlaneRef.construction (SurfaceGeom.plane ⟨0, 0, 1⟩)

/-- The scenario sketch: a unit square of four lines. -/
def scenarioCSketch : Sketch :=
  { name := "sq", referencePlane := scenarioCPlane,
    lines := [(⟨0, 0⟩, ⟨1, 0⟩), (⟨1, 0⟩, ⟨1, 1⟩), (⟨1, 1⟩, ⟨0, 1⟩),
      (⟨0, 1⟩, ⟨0, 0⟩)],
    arcs := [], circles := [], splines := [] }

/-- The first scenario extrude; its body queries all fail. -/
def scenarioCExtrude1 : ExtrudeFeature :=
  { name := "E1", entityToken := "tA", extentOne := ExtentDef.distance 1,
    profile := some (ProfileObj.single (some ⟨"sq", scenarioCPlane⟩)),
    bodiesQ := none, linkedQ := none, componentBodiesQ := none }

/-- The second scenario extrude. -/
def scenarioCExtrude2 : ExtrudeFeature :=
  { scenarioCExtrude1 with
    name := "E2"
    entityToken := "tB"
    extentOne := ExtentDef.distance (1/2) }

/-- The scenario combine: operation Cut, body references unavailable. -/
def scenarioCCombine : CombineFeature :=
  { name := "C1", entityToken := "tC",
    operationQ := some FeatureOperation.cut, opErrMsg := "",
    targetBody := none, toolBodies := none }

/-- The scenario design: two extrudes followed by the Cut combine. -/
def scenarioCDesign : Design :=
  { docName := "demo", unitsEnumQ := some DistanceUnitEnum.mm,
    unitsStringQ := none, unitFactor := 10, allParameters := [],
    userParameters := [],
    rootComponent :=
      { name := "root"
        sketches := [scenarioCSketch]
        features := [Feature.extrude scenarioCExtrude1,
          Feature.extrude scenarioCExtrude2,
          Feature.combine scenarioCCombine] } }

set_option maxRecDepth 100000 in
/-- C3: in a translation run with exactly two Extrude features followed
by one Combine whose operation is Cut and whose body references are
unavailable from the host, the output contains the statement
`subtract(extrude1, tools = extrude2)` whose operands are the first two
extrude-derived variables in creation order (the variables of the two
extrude statements emitted earlier in the same run). -/
theorem scenario_c_positional_fallback :
    scenarioCCombine.operationQ = some FeatureOperation.cut ∧
    scenarioCCombine.targetBody = none ∧
    scenarioCCombine.toolBodies = none ∧
    scenarioCDesign.rootComponent.features =
      [Feature.extrude scenarioCExtrude1, Feature.extrude scenarioCExtrude2,
        Feature.combine scenarioCCombine] ∧
    (exportDesign initialState scenarioCDesign).kclContent.contains
      ("extrude1 = sq |> extrude(length = 10.0)") = true ∧
    (exportDesign initialState scenarioCDesign).kclContent.contains
      ("extrude2 = sq |> extrude(length = 5.0)") = true ∧
    (exportDesign initialState scenarioCDesign).kclContent.contains
      ("solid003 = subtract(extrude1, tools = extrude2)") = true := by
  refine ⟨rfl, rfl, rfl, rfl, ?_, ?_, ?_⟩ <;> decide

/-! ## Claim C8: a sketch with zero curves -/

/-- C8 (amended): a sketch with zero curve primitives emits no sketch
block — no `startSketchOn`, no profile statements, no close — but it does
contribute exactly two comment lines (the sketch header and the skip
notice) to the script document. -/
theorem empty_sketch_amended :
    ∀ (u : ℚ) (st : ExporterState) (sk : Sketch),
    st.indentLevel = 0 →
    sketchTotalCurves sk = 0 →
    (exportSketch u st sk).kclContent = st.kclContent ++
      [String.append ("// ") (String.append ("Sketch: ") sk.name),
        String.append ("// ")
          (String.append ("Skipping ") (sk.name ++ " - no curves found"))] := by
  intro u st sk h0 htot
  unfold exportSketch
  dsimp only
  rw [if_pos htot]
  rw [addComment_content _ _
      (by rw [setSketchCtx_indentLevel, addComment_indentLevel]; exact h0),
    setSketchCtx_kclContent, addComment_content st _ h0]
  simp [List.append_assoc]

/-- A concrete sketch with zero curves. -/
def emptySketch : Sketch :=
  { name := "s0", referencePlane := scenarioCPlane, lines := [],
    arcs := [], circles := [], splines := [] }

/-- Counterexample to C8 as stated: a zero-curve sketch does not
contribute zero output — the script document grows by two comment
lines. -/
theorem empty_sketch_counterexample :
    sketchTotalCurves emptySketch = 0 ∧
    (exportSketch 10 initialState emptySketch).kclContent ≠
      initialState.kclContent ∧
    (exportSketch 10 initialState emptySketch).kclContent =
      ["// Sketch: s0", "// Skipping s0 - no curves found"] := by
  refine ⟨rfl, ?_, by decide⟩
  decide

/-- Witness for C8 (amended): the concrete zero-curve sketch. -/
theorem empty_sketch_witness :
    (exportSketch 10 initialState emptySketch).kclContent =
      initialState.kclContent ++
        [String.append ("// ") (String.append ("Sketch: ") emptySketch.name),
          String.append ("// ") (String.append ("Skipping ")
            (emptySketch.name ++ " - no curves found"))] :=
  empty_sketch_amended 10 initialState emptySketch rfl rfl

/-! ## Claim C4: the close-statement policy of `export_sketch` -/

theorem str_data_append (a b : String) : (a ++ b).data = a.data ++ b.data :=
  rfl

/-- The four shapes of lines emitted inside a sketch chain body (profile
start and the curve drawing ops, at indent level 1). -/
def IsChainOpLine (l : String) : Prop :=
  (∃ r, l = String.append ("  ")
    (String.append ("  |> line(endAbsolute = [") r)) ∨
  (∃ r, l = String.append ("  ")
    (String.append ("  |> arc(angleStart = ") r)) ∨
  (∃ r, l = String.append ("  ")
    (String.append ("  |> circle(center = [") r)) ∨
  (∃ r, l = String.append ("  ")
    (String.append ("|> startProfile(at = [") r))

theorem chainOp_ne_closeLine (l : String) (h : IsChainOpLine l) :
    l ≠ closeLine := by
  rcases h with ⟨r, rfl⟩ | ⟨r, rfl⟩ | ⟨r, rfl⟩ | ⟨r, rfl⟩
  · intro he
    have h2 : (some (' ') : Option Char) = some ('|') :=
      congrArg (fun s => s.data.get? 2) he
    exact absurd h2 (by decide)
  · intro he
    have h2 : (some (' ') : Option Char) = some ('|') :=
      congrArg (fun s => s.data.get? 2) he
    exact absurd h2 (by decide)
  · intro he
    have h2 : (some (' ') : Option Char) = some ('|') :=
      congrArg (fun s => s.data.get? 2) he
    exact absurd h2 (by decide)
  · intro he
    have h2 : (some ('s') : Option Char) = some ('c') :=
      congrArg (fun s => s.data.get? 5) he
    exact absurd h2 (by decide)

theorem indentStr_one (st : ExporterState) (h : st.indentLevel = 1) :
    indentStr st = "  " := by
  unfold indentStr
  rw [h]
  rfl

/-- The specification transported through each chain-body emitter: lines
are appended, all of chain-op shape, and the indent level is kept. -/
def ChainAppends (st st' : ExporterState) : Prop :=
  ∃ ls, st'.kclContent = st.kclContent ++ ls ∧
    (∀ l ∈ ls, IsChainOpLine l) ∧ st'.indentLevel = st.indentLevel

theorem chainAppends_refl (st : ExporterState) : ChainAppends st st :=
  ⟨[], by simp, by simp, rfl⟩

theorem chainAppends_trans {s1 s2 s3 : ExporterState}
    (h1 : ChainAppends s1 s2) (h2 : ChainAppends s2 s3) :
    ChainAppends s1 s3 := by
  obtain ⟨l1, e1, a1, i1⟩ := h1
  obtain ⟨l2, e2, a2, i2⟩ := h2
  refine ⟨l1 ++ l2, ?_, ?_, ?_⟩
  · rw [e2, e1, List.append_assoc]
  · intro l hl
    rcases List.mem_append.1 hl with h | h
    · exact a1 l h
    · exact a2 l h
  · rw [i2, i1]

theorem chainAppends_addLine (st : ExporterState) (l : String)
    (h1 : st.indentLevel = 1) (hl : IsChainOpLine (String.append ("  ") l)) :
    ChainAppends st (addLine st l) := by
  refine ⟨[indentStr st ++ l], rfl, ?_, rfl⟩
  intro x hx
  rw [List.mem_singleton] at hx
  subst hx
  rw [indentStr_one st h1]
  exact hl

theorem exportLine_chainAppends (u : ℚ) (st : ExporterState) (a b : Pt)
    (h1 : st.indentLevel = 1) :
    ChainAppends st (exportLine u st a b) := by
  unfold exportLine
  dsimp only
  split
  · exact chainAppends_refl st
  · split
    · exact chainAppends_refl st
    · exact chainAppends_addLine st _ h1 (Or.inl ⟨_, rfl⟩)

theorem exportArc_chainAppends (u : ℚ) (st : ExporterState) (a : ArcData)
    (h1 : st.indentLevel = 1) :
    ChainAppends st (exportArc u st a) :=
  chainAppends_addLine st _ h1 (Or.inr (Or.inl ⟨_, rfl⟩))

theorem exportCircle_chainAppends (u : ℚ) (st : ExporterState)
    (c : CircleData) (h1 : st.indentLevel = 1) :
    ChainAppends st (exportCircle u st c) :=
  chainAppends_addLine st _ h1 (Or.inr (Or.inr (Or.inl ⟨_, rfl⟩)))

theorem splineStep_chainAppends (st : ExporterState)
    (pr : (ℚ × ℚ) × (ℚ × ℚ)) (h1 : st.indentLevel = 1) :
    ChainAppends st (splineStep st pr) := by
  unfold splineStep
  dsimp only
  split
  · exact chainAppends_refl st
  · exact chainAppends_addLine st _ h1 (Or.inl ⟨_, rfl⟩)

theorem splineFold_chainAppends :
    ∀ (L : List ((ℚ × ℚ) × (ℚ × ℚ))) (st : ExporterState),
    st.indentLevel = 1 → ChainAppends st (L.foldl splineStep st) := by
  intro L
  induction L with
  | nil => intro st _; exact chainAppends_refl st
  | cons pr t ih =>
    intro st h1
    have hstep := splineStep_chainAppends st pr h1
    have hlvl : (splineStep st pr).indentLevel = 1 := by
      rw [hstep.choose_spec.2.2, h1]
    exact chainAppends_trans hstep (ih (splineStep st pr) hlvl)

theorem exportSpline_chainAppends (u : ℚ) (st : ExporterState)
    (ps : List Pt) (h1 : st.indentLevel = 1) :
    ChainAppends st (exportSpline u st ps) :=
  splineFold_chainAppends _ st h1

theorem exportCurveItem_chainAppends (u : ℚ) (st : ExporterState)
    (c : Curve) (h1 : st.indentLevel = 1) :
    ChainAppends st (exportCurveItem u st c) := by
  cases c with
  | line a b => exact exportLine_chainAppends u st a b h1
  | arc cc a b r sa ea => exact exportArc_chainAppends u st _ h1
  | circle cc r => exact exportCircle_chainAppends u st _ h1
  | spline ps => exact exportSpline_chainAppends u st ps h1

theorem curveFold_chainAppends (u : ℚ) :
    ∀ (cs : List Curve) (st : ExporterState),
    st.indentLevel = 1 →
    ChainAppends st (cs.foldl (exportCurveItem u) st) := by
  intro cs
  induction cs with
  | nil => intro st _; exact chainAppends_refl st
  | cons c t ih =>
    intro st h1
    have hstep := exportCurveItem_chainAppends u st c h1
    have hlvl : (exportCurveItem u st c).indentLevel = 1 := by
      rw [hstep.choose_spec.2.2, h1]
    exact chainAppends_trans hstep (ih (exportCurveItem u st c) hlvl)

theorem chainAppends_addLineCpp (st : ExporterState) (l : String)
    (v : Option (ℚ × ℚ)) (h1 : st.indentLevel = 1)
    (hl : IsChainOpLine (String.append ("  ") l)) :
    ChainAppends st { addLine st l with currentProfilePosition := v } := by
  refine ⟨[indentStr st ++ l], rfl, ?_, rfl⟩
  intro x hx
  rw [List.mem_singleton] at hx
  subst hx
  rw [indentStr_one st h1]
  exact hl

theorem exportSketchCurve_chainAppends (u : ℚ) (st : ExporterState)
    (sk : Sketch) (h1 : st.indentLevel = 1) :
    ChainAppends st (exportSketchCurve u st sk).1 := by
  unfold exportSketchCurve
  dsimp only
  cases hh : (sortCurvesByConnectivity st.currentSketchPlane u
      (sketchAllCurves sk)).head? with
  | none => exact chainAppends_refl st
  | some first =>
    dsimp only
    cases first with
    | line a b =>
      exact chainAppends_trans
        (chainAppends_addLineCpp st _ _ h1 (Or.inr (Or.inr (Or.inr ⟨_, rfl⟩))))
        (curveFold_chainAppends u _ _ h1)
    | arc cc a b r sa ea =>
      exact chainAppends_trans
        (chainAppends_addLineCpp st _ _ h1 (Or.inr (Or.inr (Or.inr ⟨_, rfl⟩))))
        (curveFold_chainAppends u _ _ h1)
    | circle cc r =>
      exact chainAppends_trans
        (chainAppends_addLineCpp st _ _ h1 (Or.inr (Or.inr (Or.inr ⟨_, rfl⟩))))
        (curveFold_chainAppends u _ _ h1)
    | spline ps =>
      dsimp only
      cases hps : ps.head? with
      | none =>
        exact chainAppends_trans
          (chainAppends_addLineCpp st _ _ h1
            (Or.inr (Or.inr (Or.inr ⟨("0.0, 0.0], %)"), rfl⟩))))
          (curveFold_chainAppends u _ _ h1)
      | some p =>
        exact chainAppends_trans
          (chainAppends_addLineCpp st _ _ h1
            (Or.inr (Or.inr (Or.inr ⟨_, rfl⟩))))
          (curveFold_chainAppends u _ _ h1)

theorem exportSketchCurve_snd (u : ℚ) (st : ExporterState) (sk : Sketch) :
    (exportSketchCurve u st sk).2 = !sk.circles.isEmpty := by
  unfold exportSketchCurve
  dsimp only
  cases hh : (sortCurvesByConnectivity st.currentSketchPlane u
      (sketchAllCurves sk)).head? with
  | none => rfl
  | some first => rfl

theorem close_render : ("  " : String) ++ "|> close(%)" = closeLine := rfl

theorem addLine_indentLevel (st : ExporterState) (l : String) :
    (addLine st l).indentLevel = st.indentLevel := rfl

theorem comment_ne_closeLine (c : String) :
    String.append ("// ") c ≠ closeLine := by
  intro he
  have h2 : (some ('/') : Option Char) = some (' ') :=
    congrArg (fun s => s.data.get? 0) he
  exact absurd h2 (by decide)

theorem startLine_ne_closeLine (a b : String) :
    a ++ " = startSketchOn(" ++ b ++ ")" ≠ closeLine := by
  intro he
  have hm : ('=') ∈ (a ++ " = startSketchOn(" ++ b ++ ")").data := by
    rw [str_data_append, str_data_append, str_data_append]
    refine List.mem_append.2 (Or.inl ?_)
    refine List.mem_append.2 (Or.inl ?_)
    refine List.mem_append.2 (Or.inr ?_)
    decide
  rw [he] at hm
  exact absurd hm (by decide)

theorem blank_ne_closeLine : ("" : String) ≠ closeLine := by decide

theorem closeTail_true (r : ExporterState) (h : r.indentLevel = 1) :
    (addLine (withIndent (addLine r ("|> close(%)"))
      ((addLine r ("|> close(%)")).indentLevel - 1)) ("")).kclContent
      = r.kclContent ++ [closeLine] ++ [""] := by
  have h2 : (withIndent (addLine r ("|> close(%)"))
      ((addLine r ("|> close(%)")).indentLevel - 1)).indentLevel = 0 := by
    rw [withIndent_indentLevel, addLine_indentLevel, h]
  rw [addLine_content _ _ h2, withIndent_kclContent]
  calc (addLine r ("|> close(%)")).kclContent ++ [("")]
      = (r.kclContent ++ [indentStr r ++ "|> close(%)"]) ++ [("")] := rfl
    _ = (r.kclContent ++ [closeLine]) ++ [("")] := by
        rw [indentStr_one r h, close_render]
    _ = r.kclContent ++ [closeLine] ++ [("")] := rfl

theorem closeTail_false (r : ExporterState) (h : r.indentLevel = 1) :
    (addLine (withIndent r (r.indentLevel - 1)) ("")).kclContent
      = r.kclContent ++ [""] := by
  have h2 : (withIndent r (r.indentLevel - 1)).indentLevel = 0 := by
    rw [withIndent_indentLevel, h]
  rw [addLine_content _ _ h2, withIndent_kclContent]

theorem exportSketchBody_decomp (u : ℚ) (s : ExporterState) (sk : Sketch)
    (v p : String) (h0 : s.indentLevel = 0) :
    ∃ ls, (exportSketchBody u s sk v p).kclContent =
      s.kclContent ++ [v ++ " = startSketchOn(" ++ p ++ ")"] ++ ls ++
        (if sk.circles.isEmpty then [closeLine] else []) ++ [""] ∧
      ∀ l ∈ ls, IsChainOpLine l := by
  unfold exportSketchBody
  dsimp only
  obtain ⟨ls, hcontent, hops, hlvl⟩ :=
    exportSketchCurve_chainAppends u
      (withIndent (addLine s (v ++ " = startSketchOn(" ++ p ++ ")"))
        ((addLine s (v ++ " = startSketchOn(" ++ p ++ ")")).indentLevel + 1))
      sk (by show s.indentLevel + 1 = 1; rw [h0])
  rw [exportSketchCurve_snd]
  refine ⟨ls, ?_, hops⟩
  have hR1 : ((exportSketchCurve u
      (withIndent (addLine s (v ++ " = startSketchOn(" ++ p ++ ")"))
        ((addLine s (v ++ " = startSketchOn(" ++ p ++ ")")).indentLevel + 1))
      sk).1).indentLevel = 1 := by
    rw [hlvl, withIndent_indentLevel, addLine_indentLevel, h0]
  have hS4c : ((exportSketchCurve u
      (withIndent (addLine s (v ++ " = startSketchOn(" ++ p ++ ")"))
        ((addLine s (v ++ " = startSketchOn(" ++ p ++ ")")).indentLevel + 1))
      sk).1).kclContent =
      (s.kclContent ++ [v ++ " = startSketchOn(" ++ p ++ ")"]) ++ ls := by
    rw [hcontent, withIndent_kclContent, addLine_content s _ h0]
  cases hc : sk.circles.isEmpty with
  | true =>
    rw [if_neg (by decide : ¬ ((!true) = true)), if_pos rfl]
    rw [closeTail_true _ hR1, hS4c]
  | false =>
    rw [if_pos (by decide : (!false) = true),
      if_neg (by decide : ¬ (false = true))]
    rw [closeTail_false _ hR1, hS4c, List.append_nil]

/-- Claim C4 (amended): for every sketch holding at least one curve,
exported at top level, the block of lines `export_sketch` appends contains
the close statement exactly when the sketch contains no circle: a
lone-circle sketch gets no close statement and no sketch containing a
circle gets one, but - against the claim - a fully connected closed loop
of non-circle curves loses its close statement as soon as any circle is
also present in the same sketch. -/
theorem sketch_close_policy_amended (u : ℚ) (st : ExporterState)
    (sk : Sketch) (h0 : st.indentLevel = 0)
    (hne : ¬ sketchTotalCurves sk = 0) :
    ∃ app, (exportSketch u st sk).kclContent = st.kclContent ++ app ∧
      (closeLine ∈ app ↔ sk.circles = []) := by
  unfold exportSketch
  dsimp only
  rw [if_neg hne]
  obtain ⟨ls, hc, hops⟩ := exportSketchBody_decomp u
    (setSketchCtx (addComment st (String.append ("Sketch: ") sk.name))
      (some (getPlaneName sk.referencePlane)))
    sk (getSafeName sk.name) (getPlaneName sk.referencePlane)
    (by rw [setSketchCtx_indentLevel, addComment_indentLevel, h0])
  refine ⟨[String.append ("// ") (String.append ("Sketch: ") sk.name)] ++
    [getSafeName sk.name ++ " = startSketchOn(" ++
      getPlaneName sk.referencePlane ++ ")"] ++ ls ++
    (if sk.circles.isEmpty then [closeLine] else []) ++ [""], ?_, ?_⟩
  · rw [hc, setSketchCtx_kclContent, addComment_content st _ h0]
    simp [List.append_assoc]
  · cases hcirc : sk.circles with
    | nil => simp
    | cons c cs =>
      constructor
      · intro hmem
        exfalso
        rw [if_neg (by simp : ¬ ((c :: cs).isEmpty = true)),
          List.append_nil] at hmem
        rcases List.mem_append.1 hmem with hm | hm
        · rcases List.mem_append.1 hm with hm2 | hm2
          · rcases List.mem_append.1 hm2 with hm3 | hm3
            · rw [List.mem_singleton] at hm3
              exact comment_ne_closeLine _ hm3.symm
            · rw [List.mem_singleton] at hm3
              exact startLine_ne_closeLine _ _ hm3.symm
          · exact chainOp_ne_closeLine _ (hops _ hm2) rfl
        · rw [List.mem_singleton] at hm
          exact blank_ne_closeLine hm.symm
      · intro he
        exact absurd he (List.cons_ne_nil c cs)

/-- A sketch whose non-circle curves already form a fully connected closed
loop (a unit square of lines) and which also holds one circle. -/
def c4Sketch : Sketch :=
  { name := "cx", referencePlane := scenarioCPlane,
    lines := [(⟨0, 0⟩, ⟨1, 0⟩), (⟨1, 0⟩, ⟨1, 1⟩), (⟨1, 1⟩, ⟨0, 1⟩),
      (⟨0, 1⟩, ⟨0, 0⟩)],
    arcs := [], circles := [⟨⟨5, 5⟩, 1⟩], splines := [] }

/-- The non-circle curves of `c4Sketch`, in input order. -/
def c4Lines : List Curve :=
  [Curve.line ⟨0, 0⟩ ⟨1, 0⟩, Curve.line ⟨1, 0⟩ ⟨1, 1⟩,
    Curve.line ⟨1, 1⟩ ⟨0, 1⟩, Curve.line ⟨0, 1⟩ ⟨0, 0⟩]

set_option maxRecDepth 100000 in
/-- Counterexample to C4 as stated: the non-circle curves of `c4Sketch`
fully connect into a closed loop (every cyclically consecutive pair shares
a logical endpoint within tolerance), yet because one circle is also
present no close statement is emitted anywhere in the exported output. -/
theorem sketch_close_policy_counterexample :
    c4Sketch.lines.map (fun pr => Curve.line pr.1 pr.2) = c4Lines ∧
    (∀ pr ∈ c4Lines.zip (c4Lines.rotate 1), shareClose pr.1 pr.2) ∧
    c4Sketch.circles ≠ [] ∧
    closeLine ∉ (exportSketch 10 initialState c4Sketch).kclContent := by
  refine ⟨rfl, by decide, by decide, by decide⟩

/-- A lone-circle sketch used to instantiate the amended C4 theorem. -/
def c4wSketch : Sketch :=
  { name := "w", referencePlane := scenarioCPlane, lines := [],
    arcs := [], circles := [⟨⟨0, 0⟩, 2⟩], splines := [] }

/-- Witness: the amended C4 theorem applied to a lone-circle sketch from
the fresh exporter state. -/
theorem sketch_close_policy_witness :
    initialState.indentLevel = 0 ∧ ¬ sketchTotalCurves c4wSketch = 0 ∧
    ∃ app, (exportSketch 10 initialState c4wSketch).kclContent =
      initialState.kclContent ++ app ∧
      (closeLine ∈ app ↔ c4wSketch.circles = []) :=
  ⟨rfl, by decide,
    sketch_close_policy_amended 10 initialState c4wSketch rfl (by decide)⟩

/-! ## Claim C1 support: the rounded-coordinate lattice -/

/-- A rational that is an integer multiple of `1/1000` (every converted
coordinate is, being a `round(_, 3)` result). -/
def Lat (q : ℚ) : Prop := ∃ m : ℤ, q = (m : ℚ) / 1000

/-- Both components on the thousandth lattice. -/
def LatP (p : ℚ × ℚ) : Prop := Lat p.1 ∧ Lat p.2

theorem lat_round3 (x : ℚ) : Lat (round3 x) := ⟨pyRound (x * 1000), rfl⟩

theorem lat_neg (q : ℚ) (h : Lat q) : Lat (-q) := by
  obtain ⟨m, rfl⟩ := h
  exact ⟨-m, by push_cast; ring⟩

theorem latP_convertPoint2d (pl : Option String) (u : ℚ) (p : Pt) :
    LatP (convertPoint2d pl u p) := by
  unfold convertPoint2d convLen
  cases pl with
  | none => exact ⟨lat_round3 _, lat_round3 _⟩
  | some s =>
    dsimp only
    split
    · exact ⟨lat_round3 _, lat_neg _ (lat_round3 _)⟩
    · exact ⟨lat_round3 _, lat_round3 _⟩

theorem lat_close_iff (a b : ℚ) (ha : Lat a) (hb : Lat b) :
    qAbs (a - b) < 1/1000 ↔ a = b := by
  obtain ⟨m, rfl⟩ := ha
  obtain ⟨n, rfl⟩ := hb
  rw [qAbs_eq_abs, div_sub_div_same, abs_div]
  rw [show |(1000 : ℚ)| = 1000 by norm_num]
  rw [div_lt_div_iff_of_pos_right (by norm_num : (0 : ℚ) < 1000)]
  rw [show ((m : ℚ) - n) = ((m - n : ℤ) : ℚ) by push_cast; ring]
  rw [← Int.cast_abs]
  constructor
  · intro h
    have h2 : |m - n| < 1 := by exact_mod_cast h
    rw [abs_lt] at h2
    have h4 : m = n := by omega
    rw [h4]
  · intro h
    have h6 := h
    rw [div_eq_div_iff (by norm_num : (1000 : ℚ) ≠ 0)
      (by norm_num : (1000 : ℚ) ≠ 0)] at h6
    have h5 : (m : ℚ) = n := mul_right_cancel₀ (by norm_num) h6
    have h4 : m = n := by exact_mod_cast h5
    rw [h4]
    norm_num

/-- Strict lexicographic order on converted points; on lattice points this
is what both `betterStart` and the claim comparator `tolLt` express. -/
def lexLt (a b : ℚ × ℚ) : Prop := a.1 < b.1 ∨ (a.1 = b.1 ∧ a.2 < b.2)

theorem lexLt_irrefl (a : ℚ × ℚ) : ¬ lexLt a a := by
  rintro (h | ⟨_, h⟩) <;> exact lt_irrefl _ h

theorem lexLt_trans {a b c : ℚ × ℚ} (h1 : lexLt a b) (h2 : lexLt b c) :
    lexLt a c := by
  rcases h1 with h1 | ⟨e1, h1⟩ <;> rcases h2 with h2 | ⟨e2, h2⟩
  · exact Or.inl (lt_trans h1 h2)
  · exact Or.inl (e2 ▸ h1)
  · exact Or.inl (e1 ▸ h2)
  · exact Or.inr ⟨e1.trans e2, lt_trans h1 h2⟩

theorem lexLt_total (a b : ℚ × ℚ) :
    lexLt a b ∨ lexLt b a ∨ (a.1 = b.1 ∧ a.2 = b.2) := by
  rcases lt_trichotomy a.1 b.1 with h | h | h
  · exact Or.inl (Or.inl h)
  · rcases lt_trichotomy a.2 b.2 with h2 | h2 | h2
    · exact Or.inl (Or.inr ⟨h, h2⟩)
    · exact Or.inr (Or.inr ⟨h, h2⟩)
    · exact Or.inr (Or.inl (Or.inr ⟨h.symm, h2⟩))
  · exact Or.inr (Or.inl (Or.inl h))

theorem betterStart_lattice (a b : ℚ × ℚ) (ha : LatP a) (hb : LatP b) :
    betterStart a b = true ↔ lexLt a b := by
  unfold betterStart lexLt
  rw [Bool.or_eq_true, Bool.and_eq_true, decide_eq_true_iff,
    decide_eq_true_iff, decide_eq_true_iff, lat_close_iff _ _ ha.1 hb.1]

theorem tolLt_lattice (a b : ℚ × ℚ) (ha : LatP a) (hb : LatP b) :
    tolLt a b ↔ lexLt a b := by
  unfold tolLt lexLt
  rw [lat_close_iff _ _ ha.1 hb.1]

theorem pickStartAux_spec (pl : Option String) (u : ℚ) :
    ∀ (es : List CEntry) (i0 bi : ℕ) (bp : ℚ × ℚ), LatP bp →
    ∃ ri rp, pickStartAux pl u es i0 (some (bi, bp)) = some (ri, rp) ∧
      LatP rp ∧ ¬ lexLt bp rp ∧
      (∀ e ∈ es, ¬ lexLt (convertPoint2d pl u e.s) rp) ∧
      ((ri = bi ∧ rp = bp) ∨
        ∃ k e, es[k]? = some e ∧ ri = i0 + k ∧
          rp = convertPoint2d pl u e.s) := by
  intro es
  induction es with
  | nil =>
    intro i0 bi bp hbp
    refine ⟨bi, bp, rfl, hbp, lexLt_irrefl bp, ?_, Or.inl ⟨rfl, rfl⟩⟩
    intro e he
    cases he
  | cons e rest ih =>
    intro i0 bi bp hbp
    by_cases hbs : betterStart (convertPoint2d pl u e.s) bp = true
    · obtain ⟨ri, rp, heq, hlat, hnb, hall, horig⟩ :=
        ih (i0 + 1) i0 (convertPoint2d pl u e.s) (latP_convertPoint2d pl u e.s)
      refine ⟨ri, rp, ?_, hlat, ?_, ?_, ?_⟩
      · simp only [pickStartAux]
        rw [if_pos hbs]
        exact heq
      · intro h
        exact hnb (lexLt_trans ((betterStart_lattice _ _
          (latP_convertPoint2d pl u e.s) hbp).1 hbs) h)
      · intro x hx
        rcases List.mem_cons.1 hx with hx | hx
        · rw [hx]
          exact hnb
        · exact hall x hx
      · rcases horig with ⟨h1, h2⟩ | ⟨k, e2, hk, hri, hrp⟩
        · exact Or.inr ⟨0, e, by simp, by omega, h2⟩
        · exact Or.inr ⟨k + 1, e2, by simpa using hk, by omega, hrp⟩
    · obtain ⟨ri, rp, heq, hlat, hnb, hall, horig⟩ := ih (i0 + 1) bi bp hbp
      have hsb : ¬ lexLt (convertPoint2d pl u e.s) bp := fun h =>
        hbs ((betterStart_lattice _ _ (latP_convertPoint2d pl u e.s) hbp).2 h)
      refine ⟨ri, rp, ?_, hlat, hnb, ?_, ?_⟩
      · simp only [pickStartAux]
        rw [if_neg hbs]
        exact heq
      · intro x hx
        rcases List.mem_cons.1 hx with hx | hx
        · rw [hx]
          intro h
          rcases lexLt_total (convertPoint2d pl u e.s) bp with hc | hc | hc
        -- impossible cases
          · exact hsb hc
          · exact hnb (lexLt_trans hc h)
          · refine hnb ?_
            rcases h with h | ⟨h1, h2⟩
            · exact Or.inl (hc.1 ▸ h)
            · exact Or.inr ⟨hc.1 ▸ h1, hc.2 ▸ h2⟩
        · exact hall x hx
      · rcases horig with ⟨h1, h2⟩ | ⟨k, e2, hk, hri, hrp⟩
        · exact Or.inl ⟨h1, h2⟩
        · exact Or.inr ⟨k + 1, e2, by simpa using hk, by omega, hrp⟩

theorem pickStart_spec (pl : Option String) (u : ℚ) (es : List CEntry)
    (hne : es ≠ []) :
    ∃ i rp e0, pickStart pl u es = some (i, rp) ∧ es[i]? = some e0 ∧
      rp = convertPoint2d pl u e0.s ∧
      ∀ e ∈ es, ¬ lexLt (convertPoint2d pl u e.s) rp := by
  cases es with
  | nil => exact absurd rfl hne
  | cons e rest =>
    obtain ⟨ri, rp, heq, hlat, hnb, hall, horig⟩ :=
      pickStartAux_spec pl u rest 1 0 (convertPoint2d pl u e.s)
        (latP_convertPoint2d pl u e.s)
    have hmain : pickStart pl u (e :: rest) = some (ri, rp) := by
      simp only [pickStart, pickStartAux]
      exact heq
    have hforall : ∀ x ∈ e :: rest, ¬ lexLt (convertPoint2d pl u x.s) rp := by
      intro x hx
      rcases List.mem_cons.1 hx with hx | hx
      · rw [hx]
        exact hnb
      · exact hall x hx
    rcases horig with ⟨h1, h2⟩ | ⟨k, e2, hk, hri, hrp⟩
    · refine ⟨ri, rp, e, hmain, ?_, h2, hforall⟩
      rw [h1]
      simp
    · refine ⟨ri, rp, e2, hmain, ?_, hrp, hforall⟩
      rw [hri, show 1 + k = k + 1 from by omega]
      simpa using hk

/-! ## Claim C1 support: the greedy chain walk -/

/-- An entry presents a vertex pair in either orientation. -/
def entryMatches (pr : Pt × Pt) (e : CEntry) : Prop :=
  (e.s = pr.1 ∧ e.stop = pr.2) ∨ (e.s = pr.2 ∧ e.stop = pr.1)

/-- The endpoint bookkeeping `build_entries` guarantees for each entry. -/
def EntryProp (e : CEntry) : Prop :=
  getCurveStartPt e.curve = some e.s ∧ getCurveEndPt e.curve = some e.stop

/-- Consecutive edges of an open vertex path. -/
def pathPairs (w : List Pt) : List (Pt × Pt) := w.zip w.tail

/-- An entry is incident (within tolerance) to the current point. -/
def incB (cur : Pt) (e : CEntry) : Bool :=
  pointsAreClose cur e.s || pointsAreClose cur e.stop

theorem pointsAreClose_refl (p : Pt) : pointsAreClose p p = true := by
  unfold pointsAreClose qAbs
  rw [sub_self, sub_self]
  norm_num

theorem entryMatches_swap (a b : Pt) (e : CEntry) :
    entryMatches (b, a) e ↔ entryMatches (a, b) e := by
  unfold entryMatches
  exact or_comm

theorem findNext_perm_unique (cur : Pt) :
    ∀ (es : List CEntry) (e0 : CEntry) (E : List CEntry),
    es.Perm (e0 :: E) → incB cur e0 = true →
    (∀ e ∈ E, incB cur e = false) →
    ∃ fwd rest, findNext cur es = some (e0, fwd, rest) ∧ rest.Perm E ∧
      ((fwd = true ∧ pointsAreClose cur e0.s = true) ∨
       (fwd = false ∧ pointsAreClose cur e0.s = false ∧
         pointsAreClose cur e0.stop = true)) := by
  intro es
  induction es with
  | nil =>
    intro e0 E hperm
    exact absurd hperm.symm.eq_nil (by simp)
  | cons a es1 ih =>
    intro e0 E hperm hinc hnon
    by_cases ha : incB cur a = true
    · have hae : a = e0 := by
        have hmem : a ∈ e0 :: E := hperm.mem_iff.1 (List.mem_cons_self a es1)
        rcases List.mem_cons.1 hmem with h | h
        · exact h
        · exact absurd (hnon a h) (by rw [ha]; simp)
      subst hae
      have hrest : es1.Perm E := (hperm.trans (List.Perm.refl _)).cons_inv
      rcases hs : pointsAreClose cur a.s with _ | _
      · rcases ht : pointsAreClose cur a.stop with _ | _
        · exfalso
          unfold incB at ha
          rw [hs, ht] at ha
          simp at ha
        · refine ⟨false, es1, ?_, hrest, Or.inr ⟨rfl, rfl, rfl⟩⟩
          unfold findNext
          rw [hs, ht]
          simp
      · refine ⟨true, es1, ?_, hrest, Or.inl ⟨rfl, rfl⟩⟩
        unfold findNext
        rw [hs]
        simp
    · have hane : a ≠ e0 := by
        intro h
        rw [h] at ha
        exact ha hinc
      have hmem : a ∈ e0 :: E := hperm.mem_iff.1 (List.mem_cons_self a es1)
      have haE : a ∈ E := by
        rcases List.mem_cons.1 hmem with h | h
        · exact absurd h hane
        · exact h
      have hperm1 : es1.Perm (e0 :: E.erase a) := by
        have h1 := hperm.erase a
        rw [List.erase_cons_head] at h1
        rw [List.erase_cons_tail] at h1
        · exact h1
        · simp only [beq_iff_eq]
          exact fun h => hane h.symm
      have hnon1 : ∀ e ∈ E.erase a, incB cur e = false := fun e he =>
        hnon e (List.mem_of_mem_erase he)
      obtain ⟨fwd, rest1, hfind, hrest1, hspec⟩ := ih e0 (E.erase a) hperm1 hinc hnon1
      have has : pointsAreClose cur a.s = false := by
        unfold incB at ha
        rcases h : pointsAreClose cur a.s with _ | _
        · rfl
        · exfalso
          apply ha
          rw [h]
          simp
      have hat : pointsAreClose cur a.stop = false := by
        unfold incB at ha
        rcases h : pointsAreClose cur a.stop with _ | _
        · rfl
        · exfalso
          apply ha
          rw [h]
          simp
      refine ⟨fwd, a :: rest1, ?_, ?_, hspec⟩
      · unfold findNext
        rw [has, hat, hfind]
        simp
      · exact (hrest1.cons a).trans (List.perm_cons_erase haE).symm

theorem forall₂_mem_right {α β : Type*} {R : α → β → Prop} :
    ∀ {l₁ : List α} {l₂ : List β}, List.Forall₂ R l₁ l₂ →
      ∀ b ∈ l₂, ∃ a ∈ l₁, R a b := by
  intro l₁ l₂ h
  induction h with
  | nil =>
    intro b hb
    cases hb
  | @cons a b t₁ t₂ h1 h2 ih =>
    intro x hx
    rcases List.mem_cons.1 hx with hx | hx
    · exact ⟨a, List.mem_cons_self a t₁, hx ▸ h1⟩
    · obtain ⟨a2, ha2, hr⟩ := ih x hx
      exact ⟨a2, List.mem_cons_of_mem _ ha2, hr⟩

theorem head?_append_left {α : Type*} (l₁ l₂ : List α) (h : l₁ ≠ []) :
    (l₁ ++ l₂).head? = l₁.head? := by
  cases l₁ with
  | nil => exact absurd rfl h
  | cons a t => rfl

theorem chainAux_head? :
    ∀ (fuel total : ℕ) (es : List CEntry) (acc : List Curve) (cur : Pt),
    acc ≠ [] → (chainAux fuel total es acc cur).head? = acc.head? := by
  intro fuel
  induction fuel with
  | zero =>
    intro total es acc cur _
    rfl
  | succ f ih =>
    intro total es acc cur hne
    simp only [chainAux]
    split
    · cases hf : findNext cur es with
      | none => exact head?_append_left _ _ hne
      | some trip =>
        obtain ⟨e, fwd, rest⟩ := trip
        rw [ih total rest (acc ++ [e.curve]) _ (by simp)]
        exact head?_append_left _ _ hne
    · rfl

theorem chainAux_spec :
    ∀ (w : List Pt) (v : Pt) (fuel total : ℕ) (es E : List CEntry)
      (acc : List Curve),
    List.Forall₂ entryMatches (pathPairs (v :: w)) E →
    es.Perm E →
    (v :: w).Pairwise Far →
    (∀ e ∈ es, EntryProp e) →
    total = acc.length + es.length →
    es.length < fuel →
    List.Chain' shareClose acc →
    (∃ c, acc.getLast? = some c ∧ v ∈ curveEps c) →
    List.Chain' shareClose (chainAux fuel total es acc v) := by
  intro w
  induction w with
  | nil =>
    intro v fuel total es E acc hf hperm hpw hep htot hfuel hchain hlast
    have hE : E = [] := by
      have h0 : pathPairs [v] = [] := rfl
      rw [h0] at hf
      exact List.forall₂_nil_left_iff.1 hf
    subst hE
    have hes : es = [] := hperm.eq_nil
    subst hes
    cases fuel with
    | zero => exact absurd hfuel (by simp)
    | succ f =>
      simp only [List.length_nil] at htot
      simp only [chainAux]
      rw [if_neg (by omega)]
      exact hchain
  | cons v2 w2 ih =>
    intro v fuel total es E acc hf hperm hpw hep htot hfuel hchain hlast
    have hpp : pathPairs (v :: v2 :: w2) = (v, v2) :: pathPairs (v2 :: w2) := rfl
    rw [hpp] at hf
    obtain ⟨e1, E1, hm1, hf1, rfl⟩ : ∃ e1 E1, entryMatches (v, v2) e1 ∧
        List.Forall₂ entryMatches (pathPairs (v2 :: w2)) E1 ∧ E = e1 :: E1 := by
      cases hf with
      | cons h1 h2 => exact ⟨_, _, h1, h2, rfl⟩
    have hinc : incB v e1 = true := by
      rcases hm1 with ⟨hs, ht⟩ | ⟨hs, ht⟩
      · unfold incB
        rw [hs, pointsAreClose_refl]
        simp
      · unfold incB
        rw [ht, pointsAreClose_refl]
        simp
    have hvfar : ∀ x ∈ v2 :: w2, Far v x := (List.pairwise_cons.1 hpw).1
    have hnon : ∀ e ∈ E1, incB v e = false := by
      intro e he
      obtain ⟨pr, hpr, hprm⟩ := forall₂_mem_right hf1 e he
      have hz := List.of_mem_zip hpr
      have h1 : pr.1 ∈ v2 :: w2 := hz.1
      have h2 : pr.2 ∈ v2 :: w2 := List.mem_cons_of_mem _ hz.2
      have hes2 : pointsAreClose v e.s = false := by
        rcases hprm with ⟨hs, _⟩ | ⟨hs, _⟩
        · rw [hs]
          exact hvfar _ h1
        · rw [hs]
          exact hvfar _ h2
      have het : pointsAreClose v e.stop = false := by
        rcases hprm with ⟨_, ht⟩ | ⟨_, ht⟩
        · rw [ht]
          exact hvfar _ h2
        · rw [ht]
          exact hvfar _ h1
      unfold incB
      rw [hes2, het]
      rfl
    obtain ⟨fwd, rest, hfind, hrestperm, hfspec⟩ :=
      findNext_perm_unique v es e1 E1 hperm hinc hnon
    have he1es : e1 ∈ es := hperm.mem_iff.2 (List.mem_cons_self _ _)
    have hep1 : EntryProp e1 := hep e1 he1es
    have heps : curveEps e1.curve = [e1.s, e1.stop] := by
      unfold curveEps
      rw [hep1.1, hep1.2]
      rfl
    have hv2 : (if fwd then e1.stop else e1.s) = v2 := by
      rcases hm1 with ⟨hs, ht⟩ | ⟨hs, ht⟩
      · rcases hfspec with ⟨hfw, _⟩ | ⟨_, hcs, _⟩
        · rw [hfw]
          simpa using ht
        · exfalso
          rw [hs, pointsAreClose_refl] at hcs
          cases hcs
      · rcases hfspec with ⟨_, hcs⟩ | ⟨hfw, _, _⟩
        · exfalso
          rw [hs] at hcs
          have hfv : pointsAreClose v v2 = false :=
            hvfar v2 (List.mem_cons_self _ _)
          rw [hfv] at hcs
          cases hcs
        · rw [hfw]
          simpa using hs
    cases fuel with
    | zero =>
      exfalso
      exact absurd hfuel (by omega)
    | succ f =>
      have heslen : es.length = E1.length + 1 := by
        have hl := hperm.length_eq
        simpa using hl
      have hr : rest.length = E1.length := hrestperm.length_eq
      simp only [chainAux]
      rw [if_pos (by omega), hfind]
      dsimp only
      rw [hv2]
      refine ih v2 f total rest E1 (acc ++ [e1.curve]) hf1 hrestperm
        ((List.pairwise_cons.1 hpw).2) ?_ ?_ ?_ ?_ ?_
      · intro e he
        exact hep e (hperm.mem_iff.2
          (List.mem_cons_of_mem _ (hrestperm.mem_iff.1 he)))
      · simp only [List.length_append, List.length_cons, List.length_nil]
        omega
      · omega
      · obtain ⟨c, hcl, hcv⟩ := hlast
        rw [List.chain'_append]
        refine ⟨hchain, List.chain'_singleton _, ?_⟩
        intro x hx y hy
        rw [hcl] at hx
        have hxc : c = x := by simpa using hx
        have hyc : e1.curve = y := by simpa using hy
        rw [← hxc, ← hyc]
        refine ⟨v, hcv, ?_⟩
        rcases hfspec with ⟨_, hcs⟩ | ⟨_, _, hct⟩
        · refine ⟨e1.s, ?_, hcs⟩
          rw [heps]
          simp
        · refine ⟨e1.stop, ?_, hct⟩
          rw [heps]
          simp
      · refine ⟨e1.curve, List.getLast?_concat _, ?_⟩
        rw [← hv2, heps]
        cases fwd
        · simp
        · simp
theorem zip_append_right_irrel {α β : Type*} :
    ∀ (x : List α) (z : List β) (y : List α), z.length ≤ x.length →
      (x ++ y).zip z = x.zip z := by
  intro x
  induction x with
  | nil =>
    intro z y h
    have hz : z = [] := List.eq_nil_of_length_eq_zero (by simpa using h)
    rw [hz]
    simp
  | cons a t ih =>
    intro z y h
    cases z with
    | nil => simp
    | cons b u =>
      simp only [List.cons_append, List.zip_cons_cons]
      rw [ih u y (by simpa using h)]

theorem zip_drop {α β : Type*} :
    ∀ (n : ℕ) (l₁ : List α) (l₂ : List β),
      (l₁.zip l₂).drop n = (l₁.drop n).zip (l₂.drop n) := by
  intro n
  induction n with
  | zero => intro l₁ l₂; rfl
  | succ m ih =>
    intro l₁ l₂
    cases l₁ with
    | nil => simp
    | cons a t =>
      cases l₂ with
      | nil => simp
      | cons b u =>
        simp only [List.zip_cons_cons, List.drop_succ_cons]
        exact ih t u

theorem zip_take {α β : Type*} :
    ∀ (n : ℕ) (l₁ : List α) (l₂ : List β),
      (l₁.zip l₂).take n = (l₁.take n).zip (l₂.take n) := by
  intro n
  induction n with
  | zero => intro l₁ l₂; rfl
  | succ m ih =>
    intro l₁ l₂
    cases l₁ with
    | nil => simp
    | cons a t =>
      cases l₂ with
      | nil => simp
      | cons b u =>
        simp only [List.zip_cons_cons, List.take_succ_cons]
        rw [ih t u]

theorem zip_append_eq {α β : Type*} :
    ∀ (a₁ : List α) (b₁ : List β) (a₂ : List α) (b₂ : List β),
      a₁.length = b₁.length →
      (a₁ ++ a₂).zip (b₁ ++ b₂) = a₁.zip b₁ ++ a₂.zip b₂ := by
  intro a₁
  induction a₁ with
  | nil =>
    intro b₁ a₂ b₂ h
    have hb : b₁ = [] := List.eq_nil_of_length_eq_zero (by simpa using h.symm)
    rw [hb]
    simp
  | cons a t ih =>
    intro b₁ a₂ b₂ h
    cases b₁ with
    | nil => simp at h
    | cons b u =>
      simp only [List.cons_append, List.zip_cons_cons]
      rw [ih u a₂ b₂ (by simpa using h)]

theorem zip_rotate {α β : Type*} (l₁ : List α) (l₂ : List β) (n : ℕ)
    (hlen : l₁.length = l₂.length) (hn : n ≤ l₁.length) :
    (l₁.rotate n).zip (l₂.rotate n) = (l₁.zip l₂).rotate n := by
  rw [List.rotate_eq_drop_append_take hn,
    List.rotate_eq_drop_append_take (hlen ▸ hn),
    List.rotate_eq_drop_append_take
      (by rw [List.length_zip, hlen, min_self]; exact hlen ▸ hn)]
  rw [zip_append_eq _ _ _ _ (by rw [List.length_drop, List.length_drop, hlen])]
  rw [zip_drop, zip_take]
theorem cyclePairs_length (l : List Pt) : (cyclePairs l).length = l.length := by
  unfold cyclePairs
  rw [List.length_zip, List.length_rotate, min_self]

theorem cyclePairs_rotate (l : List Pt) (n : ℕ) (hn : n ≤ l.length) :
    cyclePairs (l.rotate n) = (cyclePairs l).rotate n := by
  unfold cyclePairs
  rw [List.rotate_rotate, Nat.add_comm n 1, ← List.rotate_rotate]
  exact zip_rotate l (l.rotate 1) n (by rw [List.length_rotate]) hn

theorem rotate_one_cons {α : Type*} (a : α) (l : List α) :
    (a :: l).rotate 1 = l ++ [a] := by
  rw [List.rotate_cons_succ, List.rotate_zero]

theorem cyclePairs_cons_cons (c0 c1 : Pt) (t : List Pt) :
    cyclePairs (c0 :: c1 :: t) = (c0, c1) :: pathPairs (c1 :: t ++ [c0]) := by
  have hp : pathPairs (c1 :: t ++ [c0]) = (c1 :: t).zip (t ++ [c0]) := by
    show ((c1 :: t) ++ [c0]).zip (t ++ [c0]) = (c1 :: t).zip (t ++ [c0])
    exact zip_append_right_irrel (c1 :: t) (t ++ [c0]) [c0] (by simp)
  rw [hp]
  show (c0 :: c1 :: t).zip ((c0 :: c1 :: t).rotate 1) = _
  rw [rotate_one_cons]
  show (c0 :: c1 :: t).zip (c1 :: (t ++ [c0])) = _
  rw [List.zip_cons_cons]

theorem pathPairs_append_single :
    ∀ (l : List Pt) (z a : Pt), l.getLast? = some z →
      pathPairs (l ++ [a]) = pathPairs l ++ [(z, a)] := by
  intro l
  induction l with
  | nil =>
    intro z a h
    cases h
  | cons x t ih =>
    intro z a h
    cases t with
    | nil =>
      have hz : x = z := by simpa using h
      subst hz
      rfl
    | cons y u =>
      have h2 : (y :: u).getLast? = some z := by
        rw [List.getLast?_cons_cons] at h
        exact h
      calc pathPairs ((x :: y :: u) ++ [a])
          = (x, y) :: pathPairs ((y :: u) ++ [a]) := rfl
        _ = (x, y) :: (pathPairs (y :: u) ++ [(z, a)]) := by rw [ih z a h2]
        _ = pathPairs (x :: y :: u) ++ [(z, a)] := rfl

theorem pathPairs_reverse :
    ∀ l : List Pt,
      pathPairs l.reverse = ((pathPairs l).map Prod.swap).reverse := by
  intro l
  induction l with
  | nil => rfl
  | cons a t ih =>
    cases t with
    | nil => rfl
    | cons b u =>
      rw [List.reverse_cons]
      have hlast : (b :: u).reverse.getLast? = some b := by
        rw [List.getLast?_reverse]
        rfl
      rw [pathPairs_append_single _ b a hlast, ih]
      have hstep : pathPairs (a :: b :: u) = (a, b) :: pathPairs (b :: u) := rfl
      rw [hstep, List.map_cons, List.reverse_cons]
      rfl

theorem forall₂_rotate {α β : Type*} {R : α → β → Prop} {l₁ : List α}
    {l₂ : List β} (h : List.Forall₂ R l₁ l₂) (n : ℕ) (hn : n ≤ l₁.length) :
    List.Forall₂ R (l₁.rotate n) (l₂.rotate n) := by
  rw [List.forall₂_iff_zip] at h ⊢
  obtain ⟨hlen, hmem⟩ := h
  refine ⟨by rw [List.length_rotate, List.length_rotate, hlen], ?_⟩
  intro a b hab
  apply hmem
  rw [zip_rotate l₁ l₂ n hlen hn] at hab
  exact List.mem_rotate.1 hab

theorem forall₂_reverse {α β : Type*} {R : α → β → Prop} {l₁ : List α}
    {l₂ : List β} (h : List.Forall₂ R l₁ l₂) :
    List.Forall₂ R l₁.reverse l₂.reverse :=
  List.forall₂_reverse_iff.2 h

theorem forall₂_entryMatches_swap {prs : List (Pt × Pt)} {E : List CEntry}
    (h : List.Forall₂ entryMatches prs E) :
    List.Forall₂ entryMatches (prs.map Prod.swap) E := by
  rw [List.forall₂_map_left_iff]
  refine List.Forall₂.imp ?_ h
  intro pr e hm
  cases pr with
  | mk a b => exact (entryMatches_swap a b e).2 hm

theorem perm_cons_eraseIdx {α : Type*} :
    ∀ (l : List α) (i : ℕ) (a : α), l[i]? = some a →
      l.Perm (a :: l.eraseIdx i) := by
  intro l
  induction l with
  | nil =>
    intro i a h
    simp at h
  | cons b t ih =>
    intro i a h
    cases i with
    | zero =>
      have hb : b = a := by simpa using h
      subst hb
      exact List.Perm.refl _
    | succ j =>
      have ht : t[j]? = some a := by simpa using h
      have := (ih j a ht).cons b
      refine this.trans ?_
      exact List.Perm.swap a b _

theorem buildEntries_EP (all : List Curve) :
    ∀ e ∈ buildEntries all, EntryProp e ∧ e.curve ∈ all := by
  intro e he
  obtain ⟨c, hc, hfc⟩ := List.mem_filterMap.1 he
  rcases hs : getCurveStartPt c with _ | a
  · rw [hs] at hfc
    cases hfc
  · rcases ht : getCurveEndPt c with _ | b
    · rw [hs, ht] at hfc
      cases hfc
    · rw [hs, ht] at hfc
      cases hfc
      exact ⟨⟨hs, ht⟩, hc⟩

theorem buildEntries_mem_intro (all : List Curve) (c : Curve) (a b : Pt)
    (hc : c ∈ all) (hs : getCurveStartPt c = some a)
    (ht : getCurveEndPt c = some b) :
    (⟨a, b, c⟩ : CEntry) ∈ buildEntries all := by
  refine List.mem_filterMap.2 ⟨c, hc, ?_⟩
  rw [hs, ht]

theorem buildEntries_perm {l₁ l₂ : List Curve} (h : l₁.Perm l₂) :
    (buildEntries l₁).Perm (buildEntries l₂) := h.filterMap _

theorem buildEntries_forall₂ {prs : List (Pt × Pt)} {O : List Curve}
    (h : List.Forall₂ (fun pr c => orientsTo pr c = true) prs O) :
    List.Forall₂ entryMatches prs (buildEntries O) := by
  induction h with
  | nil => exact List.Forall₂.nil
  | @cons pr c t₁ t₂ h1 h2 ih =>
    unfold orientsTo at h1
    rw [Bool.or_eq_true] at h1
    rcases h1 with hl | hl
    · have hc : c = Curve.line pr.1 pr.2 := of_decide_eq_true hl
      subst hc
      show List.Forall₂ entryMatches (pr :: t₁)
        (⟨pr.1, pr.2, Curve.line pr.1 pr.2⟩ :: buildEntries t₂)
      exact List.Forall₂.cons (Or.inl ⟨rfl, rfl⟩) ih
    · have hc : c = Curve.line pr.2 pr.1 := of_decide_eq_true hl
      subst hc
      show List.Forall₂ entryMatches (pr :: t₁)
        (⟨pr.2, pr.1, Curve.line pr.2 pr.1⟩ :: buildEntries t₂)
      exact List.Forall₂.cons (Or.inr ⟨rfl, rfl⟩) ih

theorem curves_are_lines {vs : List Pt} {O : List Curve}
    (hO : List.Forall₂ (fun pr c => orientsTo pr c = true) (cyclePairs vs) O) :
    ∀ c ∈ O, ∃ a b, c = Curve.line a b := by
  intro c hc
  obtain ⟨pr, _, hpr⟩ := forall₂_mem_right hO c hc
  unfold orientsTo at hpr
  rw [Bool.or_eq_true] at hpr
  rcases hpr with h | h
  · exact ⟨pr.1, pr.2, of_decide_eq_true h⟩
  · exact ⟨pr.2, pr.1, of_decide_eq_true h⟩

theorem sortCurves_eq_of_pick (pl : Option String) (u : ℚ)
    (all : List Curve) (hne : all ≠ []) (i : ℕ) (rp : ℚ × ℚ) (e0 : CEntry)
    (hpick : pickStart pl u (buildEntries all) = some (i, rp))
    (hidx : (buildEntries all)[i]? = some e0) :
    sortCurvesByConnectivity pl u all =
      chainAux (all.length + 1) all.length ((buildEntries all).eraseIdx i)
        [e0.curve] e0.stop := by
  cases all with
  | nil => exact absurd rfl hne
  | cons c t =>
    unfold sortCurvesByConnectivity
    dsimp only
    rw [hpick]
    dsimp only
    rw [hidx]
/-- Claim C1 (amended): for every collection of curve primitives that
forms a single simple closed polygon whose vertices are moreover pairwise
separated beyond the `1e-6` connection tolerance, presented in any input
order, `sort_curves_by_connectivity` returns a sequence in which each
consecutive pair of curves shares a logical endpoint within tolerance
`1e-6`, and the sequence starts with a curve whose start point is
lexicographically smallest under (x, then y) ordering with tie-break
tolerance `0.001`.  (The separation hypothesis is the amendment: as
stated, the claim fails when two distinct vertices lie within `1e-6`.) -/
theorem sort_single_polygon_amended (pl : Option String) (u : ℚ)
    (vs : List Pt) (curves : List Curve)
    (hpoly : IsSimplePolygonInput vs curves)
    (hfar : ∀ p ∈ vs, ∀ q ∈ vs, p ≠ q → Far p q) :
    List.Chain' shareClose (sortCurvesByConnectivity pl u curves) ∧
    StartsAtLexMin pl u curves (sortCurvesByConnectivity pl u curves) := by
  obtain ⟨hn3, hnd, _, O, hO, hperm⟩ := hpoly
  have hOlen : O.length = vs.length := by
    rw [← hO.length_eq, cyclePairs_length]
  have hclen : curves.length = vs.length := by rw [hperm.length_eq, hOlen]
  have hEOf : List.Forall₂ entryMatches (cyclePairs vs) (buildEntries O) :=
    buildEntries_forall₂ hO
  have hEOlen : (buildEntries O).length = vs.length := by
    rw [← hEOf.length_eq, cyclePairs_length]
  have hesperm : (buildEntries curves).Perm (buildEntries O) :=
    buildEntries_perm hperm
  have heslen : (buildEntries curves).length = vs.length := by
    rw [hesperm.length_eq, hEOlen]
  have hesne : buildEntries curves ≠ [] := by
    intro h
    rw [h] at heslen
    simp at heslen
    omega
  obtain ⟨i, rp, e0, hpick, hidx, hrp, hmin⟩ :=
    pickStart_spec pl u (buildEntries curves) hesne
  have hi : i < (buildEntries curves).length := by
    by_contra h
    rw [List.getElem?_eq_none (by omega)] at hidx
    cases hidx
  have he0mem : e0 ∈ buildEntries curves :=
    (perm_cons_eraseIdx _ i e0 hidx).mem_iff.2 (List.mem_cons_self _ _)
  have hEP0 : EntryProp e0 := (buildEntries_EP curves e0 he0mem).1
  have heps0 : curveEps e0.curve = [e0.s, e0.stop] := by
    unfold curveEps
    rw [hEP0.1, hEP0.2]
    rfl
  have hcne : curves ≠ [] := by
    intro h
    rw [h] at hclen
    simp at hclen
    omega
  have hsorteq := sortCurves_eq_of_pick pl u curves hcne i rp e0 hpick hidx
  have he0EO : e0 ∈ buildEntries O := hesperm.mem_iff.1 he0mem
  obtain ⟨j, hjget⟩ := List.getElem?_of_mem he0EO
  have hj : j < (buildEntries O).length := by
    by_contra h
    rw [List.getElem?_eq_none (by omega)] at hjget
    cases hjget
  have hjvs : j ≤ vs.length := by omega
  have hrotperm : ((buildEntries O).rotate j).Perm (buildEntries O) :=
    List.rotate_perm _ j
  have hrotF : List.Forall₂ entryMatches (cyclePairs (vs.rotate j))
      ((buildEntries O).rotate j) := by
    rw [cyclePairs_rotate vs j hjvs]
    exact forall₂_rotate hEOf j (by rw [cyclePairs_length]; omega)
  have hEOj : (buildEntries O)[j] = e0 := by
    have h1 : (buildEntries O)[j]? = some ((buildEntries O)[j]) :=
      List.getElem?_eq_getElem hj
    rw [h1] at hjget
    exact Option.some.inj hjget
  have hrot : (buildEntries O).rotate j =
      e0 :: ((buildEntries O).drop (j + 1) ++ (buildEntries O).take j) := by
    rw [List.rotate_eq_drop_append_take (le_of_lt hj),
      List.drop_eq_getElem_cons hj, hEOj, List.cons_append]
  have hvslen' : (vs.rotate j).length = vs.length := List.length_rotate vs j
  obtain ⟨c0, t, h1⟩ := List.exists_cons_of_ne_nil
    (show vs.rotate j ≠ [] by
      intro h
      rw [h] at hvslen'
      simp at hvslen'
      omega)
  obtain ⟨c1, vs2, h2⟩ := List.exists_cons_of_ne_nil
    (show t ≠ [] by
      intro h
      rw [h] at h1
      rw [h1] at hvslen'
      simp at hvslen'
      omega)
  have hvs' : vs.rotate j = c0 :: c1 :: vs2 := by rw [h1, h2]
  rw [hvs', hrot, cyclePairs_cons_cons] at hrotF
  obtain ⟨hm0, hFtail⟩ : entryMatches (c0, c1) e0 ∧
      List.Forall₂ entryMatches (pathPairs (c1 :: vs2 ++ [c0]))
        ((buildEntries O).drop (j + 1) ++ (buildEntries O).take j) := by
    cases hrotF with
    | cons h1 h2 => exact ⟨h1, h2⟩
  have hEOt : (buildEntries O).Perm
      (e0 :: ((buildEntries O).drop (j + 1) ++ (buildEntries O).take j)) := by
    rw [← hrot]
    exact hrotperm.symm
  have heidx : ((buildEntries curves).eraseIdx i).Perm
      ((buildEntries O).drop (j + 1) ++ (buildEntries O).take j) := by
    have h1 := perm_cons_eraseIdx (buildEntries curves) i e0 hidx
    exact (h1.symm.trans (hesperm.trans hEOt)).cons_inv
  have hepera : ∀ e ∈ (buildEntries curves).eraseIdx i, EntryProp e := by
    intro e he
    exact (buildEntries_EP curves e ((List.eraseIdx_sublist _ i).subset he)).1
  have heralen : ((buildEntries curves).eraseIdx i).length = vs.length - 1 := by
    rw [heidx.length_eq, List.length_append, List.length_drop,
      List.length_take]
    omega
  have hw : (c1 :: vs2 ++ [c0]) = (vs.rotate j).rotate 1 := by
    rw [hvs', rotate_one_cons]
  have hmemw : ∀ x ∈ c1 :: vs2 ++ [c0], x ∈ vs := by
    intro x hx
    rw [hw] at hx
    exact List.mem_rotate.1 (List.mem_rotate.1 hx)
  have hndw : (c1 :: vs2 ++ [c0]).Nodup := by
    rw [hw]
    exact (List.rotate_perm _ 1).nodup_iff.2
      ((List.rotate_perm vs j).nodup_iff.2 hnd)
  have hpwfar : (c1 :: vs2 ++ [c0]).Pairwise Far := by
    refine List.Pairwise.imp_of_mem ?_ hndw
    intro a b ha hb hab
    exact hfar a (hmemw a ha) b (hmemw b hb) hab
  have hrev : (c1 :: vs2 ++ [c0]).reverse = c0 :: (c1 :: vs2).reverse := by
    show ((c1 :: vs2) ++ [c0]).reverse = _
    rw [List.reverse_append]
    rfl
  have hchain : List.Chain' shareClose (chainAux (curves.length + 1)
      curves.length ((buildEntries curves).eraseIdx i) [e0.curve]
      e0.stop) := by
    rcases hm0 with ⟨hs0, ht0⟩ | ⟨hs0, ht0⟩
    · have ht1 : e0.stop = c1 := ht0
      rw [ht1]
      refine chainAux_spec (vs2 ++ [c0]) c1 (curves.length + 1) curves.length
        _ _ [e0.curve] hFtail heidx hpwfar hepera ?_ ?_ ?_ ?_
      · simp only [List.length_cons, List.length_nil]
        omega
      · omega
      · exact List.chain'_singleton _
      · refine ⟨e0.curve, rfl, ?_⟩
        rw [heps0, ← ht1]
        simp
    · have ht1 : e0.stop = c0 := ht0
      rw [ht1]
      have hrevF : List.Forall₂ entryMatches
          (pathPairs (c0 :: (c1 :: vs2).reverse))
          ((buildEntries O).drop (j + 1) ++ (buildEntries O).take j).reverse := by
        have h1 := forall₂_reverse (forall₂_entryMatches_swap hFtail)
        rw [← pathPairs_reverse, hrev] at h1
        exact h1
      have hpwfar2 : (c0 :: (c1 :: vs2).reverse).Pairwise Far := by
        rw [← hrev, List.pairwise_reverse]
        refine List.Pairwise.imp_of_mem ?_ hndw
        intro a b ha hb hab
        exact hfar b (hmemw b hb) a (hmemw a ha) (fun h => hab h.symm)
      refine chainAux_spec ((c1 :: vs2).reverse) c0 (curves.length + 1)
        curves.length _ _ [e0.curve] hrevF
        (heidx.trans (List.reverse_perm _).symm) hpwfar2 hepera ?_ ?_ ?_ ?_
      · simp only [List.length_cons, List.length_nil]
        omega
      · omega
      · exact List.chain'_singleton _
      · refine ⟨e0.curve, rfl, ?_⟩
        rw [heps0, ← ht1]
        simp
  constructor
  · rw [hsorteq]
    exact hchain
  · refine ⟨e0.curve, ?_, e0.s, hEP0.1, ?_⟩
    · rw [hsorteq, chainAux_head? _ _ _ _ _ (by simp)]
      rfl
    · intro c hc p hp
      obtain ⟨a, b, hab⟩ := curves_are_lines hO c (hperm.mem_iff.1 hc)
      have hpa : p = a := by
        rw [hab] at hp
        have : (some a : Option Pt) = some p := hp
        exact (Option.some.inj this).symm
      have hent : (⟨a, b, c⟩ : CEntry) ∈ buildEntries curves :=
        buildEntries_mem_intro curves c a b hc (by rw [hab]; rfl)
          (by rw [hab]; rfl)
      have hnl := hmin _ hent
      rw [hrp] at hnl
      rw [tolLt_lattice _ _ (latP_convertPoint2d pl u p)
        (latP_convertPoint2d pl u e0.s), hpa]
      exact hnl
/-- A pinched hexagon: six pairwise-distinct vertices forming a simple
closed polygon, two of which (the two midpoints) lie within the `1e-6`
connection tolerance of each other. -/
def c1Vs : List Pt :=
  [⟨0, 0⟩, ⟨10, 0⟩, ⟨5, 10⟩, ⟨10, 20⟩, ⟨0, 20⟩, ⟨5, 10 + 1/2000000⟩]

/-- The pinched hexagon edges in cycle order. -/
def c1O : List Curve :=
  [Curve.line ⟨0, 0⟩ ⟨10, 0⟩, Curve.line ⟨10, 0⟩ ⟨5, 10⟩,
    Curve.line ⟨5, 10⟩ ⟨10, 20⟩, Curve.line ⟨10, 20⟩ ⟨0, 20⟩,
    Curve.line ⟨0, 20⟩ ⟨5, 10 + 1/2000000⟩,
    Curve.line ⟨5, 10 + 1/2000000⟩ ⟨0, 0⟩]

/-- The pinched hexagon edges in the scrambled input order that derails
the greedy stitcher. -/
def c1Curves : List Curve :=
  [Curve.line ⟨0, 0⟩ ⟨10, 0⟩, Curve.line ⟨10, 0⟩ ⟨5, 10⟩,
    Curve.line ⟨5, 10 + 1/2000000⟩ ⟨0, 0⟩, Curve.line ⟨10, 20⟩ ⟨0, 20⟩,
    Curve.line ⟨5, 10⟩ ⟨10, 20⟩, Curve.line ⟨0, 20⟩ ⟨5, 10 + 1/2000000⟩]

set_option maxRecDepth 100000 in
/-- Counterexample to C1 as stated: the pinched hexagon is a single simple
closed polygon presented in some input order, yet the sorter output has a
consecutive pair of curves sharing no logical endpoint within `1e-6` (the
greedy walk jumps across the pinch). -/
theorem sort_polygon_counterexample :
    IsSimplePolygonInput c1Vs c1Curves ∧
    ¬ List.Chain' shareClose (sortCurvesByConnectivity none 1 c1Curves) := by
  constructor
  · refine ⟨by decide, by decide, by decide, c1O, ?_, by decide⟩
    exact .cons (by decide) (.cons (by decide) (.cons (by decide)
      (.cons (by decide) (.cons (by decide) (.cons (by decide) .nil)))))
  · rw [chainB_iff]
    decide

/-- A unit-square-scaled polygon with well separated vertices. -/
def c1WVs : List Pt := [⟨0, 0⟩, ⟨10, 0⟩, ⟨10, 10⟩, ⟨0, 10⟩]

/-- The square edges in cycle order. -/
def c1WO : List Curve :=
  [Curve.line ⟨0, 0⟩ ⟨10, 0⟩, Curve.line ⟨10, 0⟩ ⟨10, 10⟩,
    Curve.line ⟨10, 10⟩ ⟨0, 10⟩, Curve.line ⟨0, 10⟩ ⟨0, 0⟩]

/-- The square edges in a scrambled input order. -/
def c1WCurves : List Curve :=
  [Curve.line ⟨10, 10⟩ ⟨0, 10⟩, Curve.line ⟨0, 0⟩ ⟨10, 0⟩,
    Curve.line ⟨0, 10⟩ ⟨0, 0⟩, Curve.line ⟨10, 0⟩ ⟨10, 10⟩]

set_option maxRecDepth 100000 in
/-- Witness: the amended C1 theorem applied to a well-separated square
presented in scrambled order. -/
theorem sort_polygon_witness :
    IsSimplePolygonInput c1WVs c1WCurves ∧
    (∀ p ∈ c1WVs, ∀ q ∈ c1WVs, p ≠ q → Far p q) ∧
    (List.Chain' shareClose (sortCurvesByConnectivity none 1 c1WCurves) ∧
      StartsAtLexMin none 1 c1WCurves
        (sortCurvesByConnectivity none 1 c1WCurves)) := by
  have hpoly : IsSimplePolygonInput c1WVs c1WCurves := by
    refine ⟨by decide, by decide, by decide, c1WO, ?_, by decide⟩
    exact .cons (by decide) (.cons (by decide) (.cons (by decide)
      (.cons (by decide) .nil)))
  have hfar : ∀ p ∈ c1WVs, ∀ q ∈ c1WVs, p ≠ q → Far p q := by decide
  exact ⟨hpoly, hfar,
    sort_single_polygon_amended none 1 c1WVs c1WCurves hpoly hfar⟩
end FusionKcl
